import Mathlib

/-!
# pthreadqueue: a shallow embedding of `src/ptq.c`

The queue of `ptq.c` is a doubly-linked list of heap nodes guarded by one mutex and
three semaphores.  The embedding keeps the pointer structure: the `ptq_link` cells and
the entry buffers live in two heaps of cells addressed by natural numbers (`0` is
`NULL`), the semaphores are natural numbers, `size_t` arithmetic wraps at `2^64`.
A buffer of the caller is the list of its bytes; a null buffer is `none`.

Library primitives are modelled as follows.
* `malloc` either fails (an outcome chosen by the environment, passed as an argument)
  or returns a non-null address that is not in use; `free` removes the cell.
* `memcpy(dst, src, n)` replaces the first `n` bytes of `dst` by those of `src`; the
  caller's buffers hold at least `entry_size` bytes.
* `sem_trywait` fails on a zero semaphore; `sem_wait` on a zero semaphore never
  returns in a sequential execution (`Res.blocked`).
* `pthread_mutex_lock` returns `0`, so the branches `if (res) return false;` after the
  lock of the queue mutex are not taken; every call to `pthread_mutex_lock` and
  `pthread_mutex_unlock` is recorded, in program order, in the field `log`.
* reading or writing through a pointer that has no cell is `Res.fault`.

Each function of `ptq.c` is a function on the state `ptq_queue`; the part after the
semaphore call is a function of its own (`..._locked`), which is the critical section
of the call in the model of threads.
-/

namespace Ptq

/-! ## Machine integers -/

/-- Largest value of `size_t` (64 bit), the value of `(size_t) -1`. -/
def SIZE_MAX : Nat := 18446744073709551615

/-- The `size_t` increment `n ++`. -/
def size_inc (n : Nat) : Nat := (n + 1) % (SIZE_MAX + 1)

/-- The `size_t` decrement `n --`, also `n - 1`. -/
def size_dec (n : Nat) : Nat := (n + SIZE_MAX) % (SIZE_MAX + 1)

/-! ## Heaps -/

/-- A heap of cells: the association list of the allocated addresses. -/
abbrev Heap (α : Type) := List (Nat × α)

/-- Read the cell at address `a`. -/
def Heap.load {α : Type} : Heap α → Nat → Option α
  | [], _ => none
  | (k, v) :: t, a => if k = a then some v else Heap.load t a

/-- Write the cell at address `a`; a cell that does not exist yet is added. -/
def Heap.store {α : Type} : Heap α → Nat → α → Heap α
  | [], a, v => [(a, v)]
  | (k, w) :: t, a, v => if k = a then (a, v) :: t else (k, w) :: Heap.store t a v

/-- Remove the cell at address `a`: the effect of `free`. -/
def Heap.free {α : Type} : Heap α → Nat → Heap α
  | [], _ => []
  | (k, v) :: t, a => if k = a then Heap.free t a else (k, v) :: Heap.free t a

/-- The largest address in use. -/
def Heap.top {α : Type} : Heap α → Nat
  | [] => 0
  | (k, _) :: t => max k (Heap.top t)

/-- The address a successful `malloc` returns: non-null and not in use. -/
def Heap.fresh {α : Type} (h : Heap α) : Nat := Heap.top h + 1

/-- A successful `malloc`: the new address and the heap with the new cell, whose
content is `init`. -/
def malloc {α : Type} (h : Heap α) (init : α) : Nat × Heap α :=
  (Heap.fresh h, Heap.store h (Heap.fresh h) init)

/-- The bytes of a buffer after `memcpy(dst, src, n)`: the first `n` bytes come from
`src`, the rest of `dst` is unchanged. -/
def memcpy (dst src : List Nat) (n : Nat) : List Nat := src.take n ++ dst.drop n

/-! ## Data model (`ptq.h`) -/

/-- One link of data in the queue (`struct ptq_link`): three pointers. -/
structure ptq_link where
  prev : Nat
  next : Nat
  memory : Nat
deriving DecidableEq

/-- The calls made to the pthread mutex functions. -/
inductive Event where
  | lock_queue
  | unlock_queue
  | lock_other (m : Nat)
deriving DecidableEq

/-- The queue (`struct ptq_queue`) together with the memory it owns: `links` holds the
`ptq_link` cells, `bufs` the `memory` buffers, `log` records the mutex calls. -/
structure ptq_queue where
  read_sem : Nat
  write_sem : Nat
  empty_sem : Nat
  head : Nat
  tail : Nat
  length : Nat
  max_length : Nat
  entry_size : Nat
  links : Heap ptq_link
  bufs : Heap (List Nat)
  log : List Event
deriving DecidableEq

/-- How a call ends: it returns a value, it waits forever, or it dereferences a
pointer without a cell. -/
inductive Res (α : Type) where
  | ret (a : α)
  | blocked
  | fault
deriving DecidableEq

/-- The outcome of the two `malloc` calls of a send. -/
inductive Alloc where
  | ok
  | no_link
  | no_memory
deriving DecidableEq

/-! ## Semaphores -/

/-- The call `sem_trywait`: the decremented value, or `none` when the value is zero. -/
def sem_trywait (v : Nat) : Option Nat := if v = 0 then none else some (v - 1)

/-- The call `sem_wait`: the decremented value, or `none` when the caller waits. -/
def sem_wait (v : Nat) : Option Nat := if v = 0 then none else some (v - 1)

/-- The call `sem_post`. -/
def sem_post (v : Nat) : Nat := v + 1

/-- Append an event to the log. -/
def ptq_queue.logged (q : ptq_queue) (e : Event) : ptq_queue :=
  { q with log := q.log ++ [e] }

/-- The statement `if (mutex_to_lock) pthread_mutex_lock(mutex_to_lock);`. -/
def lock_other (q : ptq_queue) (mutex_to_lock : Nat) : ptq_queue :=
  if mutex_to_lock ≠ 0 then q.logged (Event.lock_other mutex_to_lock) else q

/-! ## Construction (`ptq.c` lines 7-68) -/

/-- The results of the library calls of `ptq_create_max`. -/
structure InitEnv where
  malloc_ok : Bool
  mutex_init : Int
  read_sem_init : Int
  write_sem_init : Int
  empty_sem_init : Int
deriving DecidableEq

/-- The environment in which every initialisation call succeeds. -/
def InitEnv.success : InitEnv := ⟨true, 0, 0, 0, 0⟩

/-- The function `ptq_create_max`: `none` is the `NULL` result. -/
def ptq_create_max (entry_size max_length : Nat) (env : InitEnv) : Option ptq_queue :=
  let max_length := if max_length = 0 then 1 else max_length
  if ¬ env.malloc_ok then none
  else
    let queue : ptq_queue :=
      { read_sem := 0, write_sem := 0, empty_sem := 0,
        head := 0, tail := 0, length := 0,
        max_length := max_length, entry_size := entry_size,
        links := [], bufs := [], log := [] }
    if env.mutex_init ≠ 0 then none
    else
      let queue := { queue with read_sem := 0 }
      if env.read_sem_init ≠ 0 then none
      else
        let queue := { queue with write_sem := 1 }
        if env.write_sem_init ≠ 0 then none
        else
          let queue := { queue with empty_sem := 1 }
          if env.empty_sem_init ≠ 0 then none
          else some queue

/-- What a C function hands to its caller: the value of its `return` statement, or
nothing when control reaches the closing brace of the body. -/
inductive Returned (α : Type) where
  | value (a : α)
  | nothing
deriving DecidableEq

/-- The function `ptq_create` (lines 65-68): the body is the single statement
`ptq_create_max(entry_size, (size_t) -1);`, with no `return`; the queue that the inner
call made is dropped. -/
def ptq_create (entry_size : Nat) (env : InitEnv) : Returned (Option ptq_queue) :=
  let _made := ptq_create_max entry_size SIZE_MAX env
  Returned.nothing

/-! ## Send (`ptq.c` lines 100-222) -/

/-- Lines 113-130 (and 175-192) when both `malloc` calls succeed: the new link `next`
with `next->next = queue->head` and the copy of `object` in `next->memory`. -/
def send_new_link (queue : ptq_queue) (object : List Nat) : Nat × ptq_queue :=
  let (next, links) := malloc queue.links (ptq_link.mk 0 0 0)
  let (memory, bufs) := malloc queue.bufs (List.replicate queue.entry_size 0)
  let links := Heap.store links next (ptq_link.mk 0 queue.head memory)
  let bufs := Heap.store bufs memory
    (memcpy (List.replicate queue.entry_size 0) object queue.entry_size)
  (next, { queue with links := links, bufs := bufs })

/-- Lines 113-129 (and 175-191) when the second `malloc` fails: the link is allocated,
written and freed again. -/
def send_drop_link (queue : ptq_queue) : ptq_queue :=
  let (next, links) := malloc queue.links (ptq_link.mk 0 0 0)
  let links := Heap.store links next (ptq_link.mk 0 queue.head 0)
  { queue with links := Heap.free links next }

/-- Lines 132-140 (and 194-202): enlink `next` as the new head and count it; `none`
when `queue->head` has no cell. -/
def send_enlink (queue : ptq_queue) (next : Nat) : Option ptq_queue :=
  let enlinked : Option ptq_queue :=
    if queue.head ≠ 0 then
      match Heap.load queue.links queue.head with
      | none => none
      | some h =>
        some { queue with
          links := Heap.store queue.links queue.head { h with prev := next },
          head := next }
    else some { queue with head := next, tail := next }
  match enlinked with
  | none => none
  | some queue => some { queue with length := size_inc queue.length }

/-- Lines 142-151 (and 204-213): the semaphore updates after an insertion. -/
def send_update_sems (queue : ptq_queue) : ptq_queue :=
  let queue :=
    if queue.length < queue.max_length then
      { queue with write_sem := sem_post queue.write_sem }
    else queue
  if queue.length = 1 then
    { queue with
      empty_sem := (sem_trywait queue.empty_sem).getD queue.empty_sem,
      read_sem := sem_post queue.read_sem }
  else queue

/-- Lines 108-159 of `ptq_send_nonblock`: what follows the `sem_trywait`. -/
def ptq_send_nonblock_locked (queue : ptq_queue) (object : List Nat) (mutex_to_lock : Nat)
    (alloc : Alloc) : Res (Bool × ptq_queue) :=
  let queue := queue.logged Event.lock_queue
  match alloc with
  | Alloc.no_link => Res.ret (false, queue.logged Event.unlock_queue)
  | Alloc.no_memory =>
    let queue := send_drop_link queue
    Res.ret (false, queue.logged Event.unlock_queue)
  | Alloc.ok =>
    let new := send_new_link queue object
    match send_enlink new.2 new.1 with
    | none => Res.fault
    | some queue =>
      let queue := send_update_sems queue
      let queue := lock_other queue mutex_to_lock
      let queue := queue.logged Event.unlock_queue
      Res.ret (true, queue)

/-- The function `ptq_send_nonblock`. -/
def ptq_send_nonblock (queue : ptq_queue) (object : List Nat) (mutex_to_lock : Nat)
    (alloc : Alloc) : Res (Bool × ptq_queue) :=
  match sem_trywait queue.write_sem with
  | none => Res.ret (false, queue)
  | some v => ptq_send_nonblock_locked { queue with write_sem := v } object mutex_to_lock alloc

/-- Lines 170-221 of `ptq_send_block`: what follows the `sem_wait`. -/
def ptq_send_block_locked (queue : ptq_queue) (object : List Nat) (mutex_to_lock : Nat)
    (alloc : Alloc) : Res (Bool × ptq_queue) :=
  let queue := queue.logged Event.lock_queue
  match alloc with
  | Alloc.no_link => Res.ret (false, queue.logged Event.unlock_queue)
  | Alloc.no_memory =>
    let queue := send_drop_link queue
    Res.ret (false, queue.logged Event.unlock_queue)
  | Alloc.ok =>
    let new := send_new_link queue object
    match send_enlink new.2 new.1 with
    | none => Res.fault
    | some queue =>
      let queue := send_update_sems queue
      let queue := lock_other queue mutex_to_lock
      let queue := queue.logged Event.unlock_queue
      Res.ret (true, queue)

/-- The function `ptq_send_block`. -/
def ptq_send_block (queue : ptq_queue) (object : List Nat) (mutex_to_lock : Nat)
    (alloc : Alloc) : Res (Bool × ptq_queue) :=
  match sem_wait queue.write_sem with
  | none => Res.blocked
  | some v => ptq_send_block_locked { queue with write_sem := v } object mutex_to_lock alloc

/-! ## Receive (`ptq.c` lines 224-332) -/

/-- Lines 242-248 (and 294-300): unlink the tail link `t`; `none` when `tail->prev`
has no cell. -/
def receive_unlink (queue : ptq_queue) (t : ptq_link) : Option ptq_queue :=
  if t.prev ≠ 0 then
    match Heap.load queue.links t.prev with
    | none => none
    | some p =>
      some { queue with
        tail := t.prev,
        links := Heap.store queue.links t.prev { p with next := 0 } }
  else some { queue with head := 0, tail := 0 }

/-- Lines 253-256 (and 307-310): free the buffer and the link at `tail`, whose content
was `t`, and count the removal. -/
def receive_release (queue : ptq_queue) (tail : Nat) (t : ptq_link) : ptq_queue :=
  let queue := { queue with bufs := Heap.free queue.bufs t.memory }
  let queue := { queue with links := Heap.free queue.links tail }
  { queue with length := size_dec queue.length }

/-- Lines 258-269 (and 312-323): the semaphore updates after a removal. -/
def receive_update_sems (queue : ptq_queue) : ptq_queue :=
  let queue :=
    if queue.length ≠ 0 then { queue with read_sem := sem_post queue.read_sem }
    else { queue with empty_sem := sem_post queue.empty_sem }
  if queue.length = size_dec queue.max_length then
    { queue with write_sem := sem_post queue.write_sem }
  else queue

/-- Lines 232-277 of `ptq_receive_nonblock`: what follows the `sem_trywait`.  The
result carries the caller's buffer `object` as the call leaves it (`none` is a null
pointer, which `memcpy` cannot write through). -/
def ptq_receive_nonblock_locked (queue : ptq_queue) (object : Option (List Nat))
    (mutex_to_lock : Nat) : Res (Bool × Option (List Nat) × ptq_queue) :=
  let queue := queue.logged Event.lock_queue
  let tail := queue.tail
  if tail = 0 then Res.ret (false, object, queue.logged Event.unlock_queue)
  else
    match Heap.load queue.links tail with
    | none => Res.fault
    | some t =>
      match receive_unlink queue t with
      | none => Res.fault
      | some queue =>
        match object, Heap.load queue.bufs t.memory with
        | some dst, some src =>
          let object := some (memcpy dst src queue.entry_size)
          let queue := receive_release queue tail t
          let queue := receive_update_sems queue
          let queue := lock_other queue mutex_to_lock
          let queue := queue.logged Event.unlock_queue
          Res.ret (true, object, queue)
        | _, _ => Res.fault

/-- The function `ptq_receive_nonblock`. -/
def ptq_receive_nonblock (queue : ptq_queue) (object : Option (List Nat))
    (mutex_to_lock : Nat) : Res (Bool × Option (List Nat) × ptq_queue) :=
  match sem_trywait queue.read_sem with
  | none => Res.ret (false, object, queue)
  | some v => ptq_receive_nonblock_locked { queue with read_sem := v } object mutex_to_lock

/-- Lines 288-331 of `ptq_receive_block`: what follows the `sem_wait`.  There is no
test of `tail`, so that `tail->prev` on a null `tail` is a fault, and the copy is
skipped when `object` is null. -/
def ptq_receive_block_locked (queue : ptq_queue) (object : Option (List Nat))
    (mutex_to_lock : Nat) : Res (Bool × Option (List Nat) × ptq_queue) :=
  let queue := queue.logged Event.lock_queue
  let tail := queue.tail
  match (if tail = 0 then none else Heap.load queue.links tail) with
  | none => Res.fault
  | some t =>
    match receive_unlink queue t with
    | none => Res.fault
    | some queue =>
      let copied : Option (Option (List Nat)) :=
        match object with
        | none => some none
        | some dst =>
          match Heap.load queue.bufs t.memory with
          | none => none
          | some src => some (some (memcpy dst src queue.entry_size))
      match copied with
      | none => Res.fault
      | some object =>
        let queue := receive_release queue tail t
        let queue := receive_update_sems queue
        let queue := lock_other queue mutex_to_lock
        let queue := queue.logged Event.unlock_queue
        Res.ret (true, object, queue)

/-- The function `ptq_receive_block`. -/
def ptq_receive_block (queue : ptq_queue) (object : Option (List Nat))
    (mutex_to_lock : Nat) : Res (Bool × Option (List Nat) × ptq_queue) :=
  match sem_wait queue.read_sem with
  | none => Res.blocked
  | some v => ptq_receive_block_locked { queue with read_sem := v } object mutex_to_lock

/-! ## Join and length (`ptq.c` lines 334-377) -/

/-- Lines 343-358 of `ptq_join`: what follows the `sem_wait`. -/
def ptq_join_locked (queue : ptq_queue) (mutex_to_lock : Nat) : Res (Bool × ptq_queue) :=
  let queue := queue.logged Event.lock_queue
  let queue := lock_other queue mutex_to_lock
  let queue :=
    if queue.length = 0 then { queue with empty_sem := sem_post queue.empty_sem }
    else queue
  let queue := queue.logged Event.unlock_queue
  Res.ret (true, queue)

/-- The function `ptq_join`. -/
def ptq_join (queue : ptq_queue) (mutex_to_lock : Nat) : Res (Bool × ptq_queue) :=
  match sem_wait queue.empty_sem with
  | none => Res.blocked
  | some v => ptq_join_locked { queue with empty_sem := v } mutex_to_lock

/-- The function `ptq_get_length`. -/
def ptq_get_length (queue : ptq_queue) (mutex_to_lock : Nat) : Res (Nat × ptq_queue) :=
  let queue := queue.logged Event.lock_queue
  let queue := lock_other queue mutex_to_lock
  let retval := queue.length
  let queue := queue.logged Event.unlock_queue
  Res.ret (retval, queue)

/-! ## Representation of the list -/

/-- One node of the list as the invariant sees it: the address of the link, the
address of its buffer, and the bytes in the buffer. -/
structure Node where
  addr : Nat
  mem : Nat
  bytes : List Nat
deriving DecidableEq

/-- The address of the first node, `NULL` for no node. -/
def first_addr : List Node → Nat
  | [] => 0
  | n :: _ => n.addr

/-- The address of the last node, `NULL` for no node. -/
def last_addr : List Node → Nat
  | [] => 0
  | [n] => n.addr
  | _ :: n :: ns => last_addr (n :: ns)

/-- The nodes `ns`, least recently added first, are linked in the heap: the `next`
pointer of a node is the address `older` of the node before it, its `prev` pointer the
address of the node after it, and its `memory` points at its bytes. -/
def Chain (links : Heap ptq_link) (bufs : Heap (List Nat)) : Nat → List Node → Prop
  | _, [] => True
  | older, n :: ns =>
    n.addr ≠ 0 ∧ Heap.load links n.addr = some (ptq_link.mk (first_addr ns) older n.mem) ∧
    Heap.load bufs n.mem = some n.bytes ∧ Chain links bufs n.addr ns

/-- The list structure of the queue: the nodes `ns`, least recently added first, are
the chain between `tail` and `head`, at distinct addresses, and `length` counts them. -/
structure Shape (q : ptq_queue) (ns : List Node) : Prop where
  chain : Chain q.links q.bufs 0 ns
  nodup_addr : (ns.map Node.addr).Nodup
  nodup_mem : (ns.map Node.mem).Nodup
  tail_eq : q.tail = first_addr ns
  head_eq : q.head = last_addr ns
  length_eq : q.length = ns.length

/-- The invariant of a quiescent queue made with `entry_size` and `max_length`, whose
entries are the nodes `ns`, least recently added first. -/
structure Inv (entry_size max_length : Nat) (q : ptq_queue) (ns : List Node) : Prop where
  shape : Shape q ns
  entry_size_eq : q.entry_size = entry_size
  max_length_eq : q.max_length = max_length
  max_pos : 1 ≤ max_length
  max_le : max_length ≤ SIZE_MAX
  length_le : ns.length ≤ max_length
  read_eq : q.read_sem = if ns.length = 0 then 0 else 1
  empty_eq : q.empty_sem = if ns.length = 0 then 1 else 0
  write_le : q.write_sem = 0 ∨ (q.write_sem = 1 ∧ ns.length < max_length)

/-- No `writable` token has been lost: there is one whenever there is room. -/
def NoLeak (q : ptq_queue) : Prop := q.length < q.max_length → q.write_sem = 1

/-! ## Calls and sequences of calls -/

/-- Map the value a call returns. -/
def Res.map {α β : Type} (f : α → β) : Res α → Res β
  | Res.ret a => Res.ret (f a)
  | Res.blocked => Res.blocked
  | Res.fault => Res.fault

/-- One call of the interface of `ptq.h`, with what the environment decides. -/
inductive Op where
  | send_nonblock (object : List Nat) (mutex_to_lock : Nat) (alloc : Alloc)
  | send_block (object : List Nat) (mutex_to_lock : Nat) (alloc : Alloc)
  | receive_nonblock (object : Option (List Nat)) (mutex_to_lock : Nat)
  | receive_block (object : Option (List Nat)) (mutex_to_lock : Nat)
  | join (mutex_to_lock : Nat)
  | get_length (mutex_to_lock : Nat)
deriving DecidableEq

/-- What the caller has after a call: the returned value and, for a receive, the
buffer `object`. -/
inductive Out where
  | sent (ok : Bool)
  | received (ok : Bool) (object : Option (List Nat))
  | joined (ok : Bool)
  | length (n : Nat)
deriving DecidableEq

/-- Run one call to its end. -/
def Op.call (op : Op) (q : ptq_queue) : Res (Out × ptq_queue) :=
  match op with
  | Op.send_nonblock object m alloc =>
    (ptq_send_nonblock q object m alloc).map (fun r => (Out.sent r.1, r.2))
  | Op.send_block object m alloc =>
    (ptq_send_block q object m alloc).map (fun r => (Out.sent r.1, r.2))
  | Op.receive_nonblock object m =>
    (ptq_receive_nonblock q object m).map (fun r => (Out.received r.1 r.2.1, r.2.2))
  | Op.receive_block object m =>
    (ptq_receive_block q object m).map (fun r => (Out.received r.1 r.2.1, r.2.2))
  | Op.join m => (ptq_join q m).map (fun r => (Out.joined r.1, r.2))
  | Op.get_length m => (ptq_get_length q m).map (fun r => (Out.length r.1, r.2))

/-- Run the calls one after the other in one thread; the run ends where a call does
not return. -/
def run : ptq_queue → List Op → Res (List Out × ptq_queue)
  | q, [] => Res.ret ([], q)
  | q, op :: ops =>
    match op.call q with
    | Res.ret (o, q2) => (run q2 ops).map (fun r => (o :: r.1, r.2))
    | Res.blocked => Res.blocked
    | Res.fault => Res.fault

/-- A call of `ptq_send_block` (`block = true`) or of `ptq_send_nonblock`. -/
structure SendCall where
  block : Bool
  object : List Nat
  mutex_to_lock : Nat
  alloc : Alloc
deriving DecidableEq

/-- The call as an `Op`. -/
def SendCall.op (c : SendCall) : Op :=
  if c.block then Op.send_block c.object c.mutex_to_lock c.alloc
  else Op.send_nonblock c.object c.mutex_to_lock c.alloc

/-- A call of `ptq_receive_block` (`block = true`) or of `ptq_receive_nonblock`. -/
structure RecvCall where
  block : Bool
  object : Option (List Nat)
  mutex_to_lock : Nat
deriving DecidableEq

/-- The call as an `Op`. -/
def RecvCall.op (c : RecvCall) : Op :=
  if c.block then Op.receive_block c.object c.mutex_to_lock
  else Op.receive_nonblock c.object c.mutex_to_lock

/-! ## The abstract bounded FIFO -/

/-- The calls of the reference model: non-blocking send and receive with buffers of
the caller, and the length query. -/
inductive Call where
  | send (object : List Nat) (mutex_to_lock : Nat)
  | receive (object : List Nat) (mutex_to_lock : Nat)
  | get_length (mutex_to_lock : Nat)
deriving DecidableEq

/-- The call on the queue of `ptq.c`, allocation never failing. -/
def Call.op : Call → Op
  | Call.send object m => Op.send_nonblock object m Alloc.ok
  | Call.receive object m => Op.receive_nonblock (some object) m
  | Call.get_length m => Op.get_length m

/-- The buffer of the call holds exactly `entry_size` bytes. -/
def Call.sized (entry_size : Nat) : Call → Prop
  | Call.send object _ => object.length = entry_size
  | Call.receive object _ => object.length = entry_size
  | Call.get_length _ => True

/-- The abstract bounded FIFO list, written from the words of the specification: a
send returns true iff the count is below `max_length` and then appends the entry; a
receive returns true iff the count is positive and then removes and outputs the oldest
entry; the length query returns the count. -/
def bounded_fifo_call (max_length : Nat) (entries : List (List Nat)) :
    Call → Out × List (List Nat)
  | Call.send object _ =>
    if entries.length < max_length then (Out.sent true, entries ++ [object])
    else (Out.sent false, entries)
  | Call.receive object _ =>
    match entries with
    | [] => (Out.received false (some object), [])
    | oldest :: rest => (Out.received true (some oldest), rest)
  | Call.get_length _ => (Out.length entries.length, entries)

/-- The outputs of a sequence of calls on the abstract bounded FIFO list. -/
def bounded_fifo_run (max_length : Nat) : List (List Nat) → List Call → List Out
  | _, [] => []
  | entries, c :: cs =>
    (bounded_fifo_call max_length entries c).1 ::
      bounded_fifo_run max_length (bounded_fifo_call max_length entries c).2 cs

/-! ## Threads

Several threads call the queue.  A call takes two atomic steps: its semaphore call
(`sem_trywait` or `sem_wait`, outside the mutex), and its critical section (from
`pthread_mutex_lock` to `pthread_mutex_unlock` on the queue mutex).  Every run of
these steps is a run of the program, in which no thread is scheduled inside the
critical section of another. -/

/-- Where a thread is: in no call, before the semaphore call of `op`, or after it and
before the critical section. -/
inductive Pc where
  | idle
  | waiting (op : Op)
  | holding (op : Op)
deriving DecidableEq

/-- A scheduling step: thread `t` calls `op`, does the semaphore call of its call, or
runs the critical section of its call and returns. -/
inductive Act where
  | call (t : Nat) (op : Op)
  | sem (t : Nat)
  | crit (t : Nat)
deriving DecidableEq

/-- The queue and the threads that are in a call. -/
structure Config where
  queue : ptq_queue
  pcs : Heap Pc
deriving DecidableEq

/-- Where thread `t` is. -/
def Config.pc (c : Config) (t : Nat) : Pc := (Heap.load c.pcs t).getD Pc.idle

/-- The semaphore call of `op`: `none` when the thread cannot go on (`sem_wait` on
zero); otherwise the queue and, when the call returns at once (a non-blocking miss),
its output. -/
def Op.sem_step (op : Op) (q : ptq_queue) : Option (ptq_queue × Option Out) :=
  match op with
  | Op.send_nonblock _ _ _ =>
    match sem_trywait q.write_sem with
    | none => some (q, some (Out.sent false))
    | some v => some ({ q with write_sem := v }, none)
  | Op.send_block _ _ _ =>
    match sem_wait q.write_sem with
    | none => none
    | some v => some ({ q with write_sem := v }, none)
  | Op.receive_nonblock object _ =>
    match sem_trywait q.read_sem with
    | none => some (q, some (Out.received false object))
    | some v => some ({ q with read_sem := v }, none)
  | Op.receive_block _ _ =>
    match sem_wait q.read_sem with
    | none => none
    | some v => some ({ q with read_sem := v }, none)
  | Op.join _ =>
    match sem_wait q.empty_sem with
    | none => none
    | some v => some ({ q with empty_sem := v }, none)
  | Op.get_length _ => some (q, none)

/-- The critical section of `op`. -/
def Op.crit_step (op : Op) (q : ptq_queue) : Res (Out × ptq_queue) :=
  match op with
  | Op.send_nonblock object m alloc =>
    (ptq_send_nonblock_locked q object m alloc).map (fun r => (Out.sent r.1, r.2))
  | Op.send_block object m alloc =>
    (ptq_send_block_locked q object m alloc).map (fun r => (Out.sent r.1, r.2))
  | Op.receive_nonblock object m =>
    (ptq_receive_nonblock_locked q object m).map (fun r => (Out.received r.1 r.2.1, r.2.2))
  | Op.receive_block object m =>
    (ptq_receive_block_locked q object m).map (fun r => (Out.received r.1 r.2.1, r.2.2))
  | Op.join m => (ptq_join_locked q m).map (fun r => (Out.joined r.1, r.2))
  | Op.get_length m => (ptq_get_length q m).map (fun r => (Out.length r.1, r.2))

/-- One scheduling step: `none` when the step is not possible; otherwise the new
configuration and the output of the call that returned in this step, if one did. -/
def step (c : Config) : Act → Option (Config × Option Out)
  | Act.call t op =>
    match c.pc t with
    | Pc.idle => some ({ c with pcs := Heap.store c.pcs t (Pc.waiting op) }, none)
    | _ => none
  | Act.sem t =>
    match c.pc t with
    | Pc.waiting op =>
      match op.sem_step c.queue with
      | none => none
      | some (q, some out) => some ({ queue := q, pcs := Heap.free c.pcs t }, some out)
      | some (q, none) => some ({ queue := q, pcs := Heap.store c.pcs t (Pc.holding op) }, none)
    | _ => none
  | Act.crit t =>
    match c.pc t with
    | Pc.holding op =>
      match op.crit_step c.queue with
      | Res.ret (out, q) => some ({ queue := q, pcs := Heap.free c.pcs t }, some out)
      | _ => none
    | _ => none

/-- Run a schedule: the configuration after each step and what returned in it. -/
def exec : Config → List Act → Option (List (Config × Option Out))
  | _, [] => some []
  | c, a :: rest =>
    match step c a with
    | none => none
    | some (c2, out) =>
      match exec c2 rest with
      | none => none
      | some tr => some ((c2, out) :: tr)

/-! ## Concrete runs -/

/-- The queue `ptq_create_max(2, 3)` makes. -/
def queue_2_3 : ptq_queue := ⟨0, 1, 1, 0, 0, 0, 3, 2, [], [], []⟩

/-- The queue `ptq_create_max(2, 2)` makes. -/
def queue_2_2 : ptq_queue := ⟨0, 1, 1, 0, 0, 0, 2, 2, [], [], []⟩

/-- Two sends: `ptq_send_nonblock` of the bytes 1 2, then `ptq_send_block` of the bytes
3 4 with the mutex 5. -/
def two_sends : List SendCall :=
  [⟨false, [1, 2], 0, Alloc.ok⟩, ⟨true, [3, 4], 5, Alloc.ok⟩]

/-- Two receives: `ptq_receive_nonblock`, then `ptq_receive_block` with the mutex 6. -/
def two_recvs : List RecvCall := [⟨false, some [0, 0], 0⟩, ⟨true, some [9, 9], 6⟩]

/-- The queue `queue_2_3` after `two_sends`. -/
def queue_2_3_sent : ptq_queue :=
  ⟨1, 1, 0, 2, 1, 2, 3, 2, [(1, ⟨2, 0, 1⟩), (2, ⟨0, 1, 2⟩)], [(1, [1, 2]), (2, [3, 4])],
    [Event.lock_queue, Event.unlock_queue, Event.lock_queue, Event.lock_other 5,
      Event.unlock_queue]⟩

/-- The queue `queue_2_3_sent` after `two_recvs`. -/
def queue_2_3_received : ptq_queue :=
  ⟨0, 1, 1, 0, 0, 0, 3, 2, [], [],
    [Event.lock_queue, Event.unlock_queue, Event.lock_queue, Event.lock_other 5,
      Event.unlock_queue, Event.lock_queue, Event.unlock_queue, Event.lock_queue,
      Event.lock_other 6, Event.unlock_queue]⟩

/-- The queue `queue_2_2` after `two_sends`: it is full. -/
def queue_2_2_sent : ptq_queue :=
  ⟨1, 0, 0, 2, 1, 2, 2, 2, [(1, ⟨2, 0, 1⟩), (2, ⟨0, 1, 2⟩)], [(1, [1, 2]), (2, [3, 4])],
    [Event.lock_queue, Event.unlock_queue, Event.lock_queue, Event.lock_other 5,
      Event.unlock_queue]⟩

/-- The queue `queue_2_2` after a send, a send whose buffer allocation fails and a
receive: it is empty and has no `writable` token. -/
def queue_2_2_drained : ptq_queue :=
  ⟨0, 0, 1, 0, 0, 0, 2, 2, [], [],
    [Event.lock_queue, Event.unlock_queue, Event.lock_queue, Event.unlock_queue,
      Event.lock_queue, Event.unlock_queue]⟩

/-- The scenario of the specification on a queue with `entry_size = 4` and
`max_length = 2`: send 1, send 2, send 3, length, receive, send 3, length, and two
receives that show the contents. -/
def scenario : List Call :=
  [Call.send [1, 0, 0, 0] 0, Call.send [2, 0, 0, 0] 0, Call.send [3, 0, 0, 0] 0,
    Call.get_length 0, Call.receive [0, 0, 0, 0] 0, Call.send [3, 0, 0, 0] 0,
    Call.get_length 0, Call.receive [0, 0, 0, 0] 0, Call.receive [0, 0, 0, 0] 0]

/-- A schedule of four threads on a queue with `max_length = 2`.  Thread 1 calls
`ptq_join` and passes `sem_wait`; before it takes the mutex, thread 2 sends and thread
3 receives, which posts `empty_sem`; thread 1 then finds the length 0 and posts
`empty_sem` again.  Thread 2 sends again, and thread 4 calls `ptq_join`. -/
def join_race : List Act :=
  [Act.call 1 (Op.join 0), Act.sem 1,
    Act.call 2 (Op.send_nonblock [7] 0 Alloc.ok), Act.sem 2, Act.crit 2,
    Act.call 3 (Op.receive_nonblock (some [0]) 0), Act.sem 3, Act.crit 3,
    Act.crit 1,
    Act.call 2 (Op.send_nonblock [8] 0 Alloc.ok), Act.sem 2, Act.crit 2,
    Act.call 4 (Op.join 0), Act.sem 4, Act.crit 4]

/-! ## Observations on calls and on the list -/

/-- The argument `mutex_to_lock` of the call. -/
def Op.mutex_to_lock : Op → Nat
  | Op.send_nonblock _ m _ => m
  | Op.send_block _ m _ => m
  | Op.receive_nonblock _ m => m
  | Op.receive_block _ m => m
  | Op.join m => m
  | Op.get_length m => m

/-- The call was performed: it returned true, or it is a length query. -/
def Out.ok : Out → Bool
  | Out.sent b => b
  | Out.received b _ => b
  | Out.joined b => b
  | Out.length _ => true

/-- No allocation of the call fails. -/
def Op.alloc_ok : Op → Prop
  | Op.send_nonblock _ _ alloc => alloc = Alloc.ok
  | Op.send_block _ _ alloc => alloc = Alloc.ok
  | _ => True

/-- The addresses of the links met from `p` along the `next` pointers until `NULL`, in
at most `fuel` steps; `none` when a link has no cell or `NULL` is not met in `fuel`
steps. -/
def reach (links : Heap ptq_link) : Nat → Nat → Option (List Nat)
  | 0, p => if p = 0 then some [] else none
  | fuel + 1, p =>
    if p = 0 then some []
    else
      match Heap.load links p with
      | none => none
      | some l => (reach links fuel l.next).map (fun path => p :: path)

/-! ## More concrete runs -/

/-- The queue `queue_2_3` after `ptq_send_nonblock` of the bytes 1 2 with the
mutex 5. -/
def queue_2_3_one : ptq_queue :=
  ⟨1, 1, 0, 1, 1, 1, 3, 2, [(1, ⟨0, 0, 1⟩)], [(1, [1, 2])],
    [Event.lock_queue, Event.lock_other 5, Event.unlock_queue]⟩

/-- The queue `queue_2_2` after `ptq_send_nonblock` of the bytes 1 2. -/
def queue_2_2_one : ptq_queue :=
  ⟨1, 1, 0, 1, 1, 1, 2, 2, [(1, ⟨0, 0, 1⟩)], [(1, [1, 2])],
    [Event.lock_queue, Event.unlock_queue]⟩

/-- The queue `queue_2_2_one` after a send whose buffer allocation failed: the
`writable` token is gone. -/
def queue_2_2_leaked : ptq_queue :=
  ⟨1, 0, 0, 1, 1, 1, 2, 2, [(1, ⟨0, 0, 1⟩)], [(1, [1, 2])],
    [Event.lock_queue, Event.unlock_queue, Event.lock_queue, Event.unlock_queue]⟩

/-- The first twelve steps of `join_race`: the join of thread 1 passes `sem_wait`, a
send and a receive of other threads run, the join runs its critical section, and a
send follows. -/
def double_post : List Act :=
  [Act.call 1 (Op.join 0), Act.sem 1,
    Act.call 2 (Op.send_nonblock [7] 0 Alloc.ok), Act.sem 2, Act.crit 2,
    Act.call 3 (Op.receive_nonblock (some [0]) 0), Act.sem 3, Act.crit 3,
    Act.crit 1,
    Act.call 2 (Op.send_nonblock [8] 0 Alloc.ok), Act.sem 2, Act.crit 2]

/-! ## Field lemmas -/

@[simp] theorem ptq_queue.logged_read_sem (q : ptq_queue) (e : Event) :
    (ptq_queue.logged q e).read_sem = q.read_sem := by
  unfold ptq_queue.logged; rfl

@[simp] theorem ptq_queue.logged_write_sem (q : ptq_queue) (e : Event) :
    (ptq_queue.logged q e).write_sem = q.write_sem := by
  unfold ptq_queue.logged; rfl

@[simp] theorem ptq_queue.logged_empty_sem (q : ptq_queue) (e : Event) :
    (ptq_queue.logged q e).empty_sem = q.empty_sem := by
  unfold ptq_queue.logged; rfl

@[simp] theorem ptq_queue.logged_head (q : ptq_queue) (e : Event) :
    (ptq_queue.logged q e).head = q.head := by
  unfold ptq_queue.logged; rfl

@[simp] theorem ptq_queue.logged_tail (q : ptq_queue) (e : Event) :
    (ptq_queue.logged q e).tail = q.tail := by
  unfold ptq_queue.logged; rfl

@[simp] theorem ptq_queue.logged_length (q : ptq_queue) (e : Event) :
    (ptq_queue.logged q e).length = q.length := by
  unfold ptq_queue.logged; rfl

@[simp] theorem ptq_queue.logged_max_length (q : ptq_queue) (e : Event) :
    (ptq_queue.logged q e).max_length = q.max_length := by
  unfold ptq_queue.logged; rfl

@[simp] theorem ptq_queue.logged_entry_size (q : ptq_queue) (e : Event) :
    (ptq_queue.logged q e).entry_size = q.entry_size := by
  unfold ptq_queue.logged; rfl

@[simp] theorem ptq_queue.logged_links (q : ptq_queue) (e : Event) :
    (ptq_queue.logged q e).links = q.links := by
  unfold ptq_queue.logged; rfl

@[simp] theorem ptq_queue.logged_bufs (q : ptq_queue) (e : Event) :
    (ptq_queue.logged q e).bufs = q.bufs := by
  unfold ptq_queue.logged; rfl

@[simp] theorem lock_other_read_sem (q : ptq_queue) (m : Nat) :
    (lock_other q m).read_sem = q.read_sem := by
  unfold lock_other; split <;> rfl

@[simp] theorem lock_other_write_sem (q : ptq_queue) (m : Nat) :
    (lock_other q m).write_sem = q.write_sem := by
  unfold lock_other; split <;> rfl

@[simp] theorem lock_other_empty_sem (q : ptq_queue) (m : Nat) :
    (lock_other q m).empty_sem = q.empty_sem := by
  unfold lock_other; split <;> rfl

@[simp] theorem lock_other_head (q : ptq_queue) (m : Nat) :
    (lock_other q m).head = q.head := by
  unfold lock_other; split <;> rfl

@[simp] theorem lock_other_tail (q : ptq_queue) (m : Nat) :
    (lock_other q m).tail = q.tail := by
  unfold lock_other; split <;> rfl

@[simp] theorem lock_other_length (q : ptq_queue) (m : Nat) :
    (lock_other q m).length = q.length := by
  unfold lock_other; split <;> rfl

@[simp] theorem lock_other_max_length (q : ptq_queue) (m : Nat) :
    (lock_other q m).max_length = q.max_length := by
  unfold lock_other; split <;> rfl

@[simp] theorem lock_other_entry_size (q : ptq_queue) (m : Nat) :
    (lock_other q m).entry_size = q.entry_size := by
  unfold lock_other; split <;> rfl

@[simp] theorem lock_other_links (q : ptq_queue) (m : Nat) :
    (lock_other q m).links = q.links := by
  unfold lock_other; split <;> rfl

@[simp] theorem lock_other_bufs (q : ptq_queue) (m : Nat) :
    (lock_other q m).bufs = q.bufs := by
  unfold lock_other; split <;> rfl

@[simp] theorem send_update_sems_head (q : ptq_queue) :
    (send_update_sems q).head = q.head := by
  unfold send_update_sems; dsimp only; split <;> split <;> rfl

@[simp] theorem send_update_sems_tail (q : ptq_queue) :
    (send_update_sems q).tail = q.tail := by
  unfold send_update_sems; dsimp only; split <;> split <;> rfl

@[simp] theorem send_update_sems_length (q : ptq_queue) :
    (send_update_sems q).length = q.length := by
  unfold send_update_sems; dsimp only; split <;> split <;> rfl

@[simp] theorem send_update_sems_max_length (q : ptq_queue) :
    (send_update_sems q).max_length = q.max_length := by
  unfold send_update_sems; dsimp only; split <;> split <;> rfl

@[simp] theorem send_update_sems_entry_size (q : ptq_queue) :
    (send_update_sems q).entry_size = q.entry_size := by
  unfold send_update_sems; dsimp only; split <;> split <;> rfl

@[simp] theorem send_update_sems_links (q : ptq_queue) :
    (send_update_sems q).links = q.links := by
  unfold send_update_sems; dsimp only; split <;> split <;> rfl

@[simp] theorem send_update_sems_bufs (q : ptq_queue) :
    (send_update_sems q).bufs = q.bufs := by
  unfold send_update_sems; dsimp only; split <;> split <;> rfl

@[simp] theorem send_update_sems_log (q : ptq_queue) :
    (send_update_sems q).log = q.log := by
  unfold send_update_sems; dsimp only; split <;> split <;> rfl

@[simp] theorem receive_update_sems_head (q : ptq_queue) :
    (receive_update_sems q).head = q.head := by
  unfold receive_update_sems; dsimp only; split <;> split <;> rfl

@[simp] theorem receive_update_sems_tail (q : ptq_queue) :
    (receive_update_sems q).tail = q.tail := by
  unfold receive_update_sems; dsimp only; split <;> split <;> rfl

@[simp] theorem receive_update_sems_length (q : ptq_queue) :
    (receive_update_sems q).length = q.length := by
  unfold receive_update_sems; dsimp only; split <;> split <;> rfl

@[simp] theorem receive_update_sems_max_length (q : ptq_queue) :
    (receive_update_sems q).max_length = q.max_length := by
  unfold receive_update_sems; dsimp only; split <;> split <;> rfl

@[simp] theorem receive_update_sems_entry_size (q : ptq_queue) :
    (receive_update_sems q).entry_size = q.entry_size := by
  unfold receive_update_sems; dsimp only; split <;> split <;> rfl

@[simp] theorem receive_update_sems_links (q : ptq_queue) :
    (receive_update_sems q).links = q.links := by
  unfold receive_update_sems; dsimp only; split <;> split <;> rfl

@[simp] theorem receive_update_sems_bufs (q : ptq_queue) :
    (receive_update_sems q).bufs = q.bufs := by
  unfold receive_update_sems; dsimp only; split <;> split <;> rfl

@[simp] theorem receive_update_sems_log (q : ptq_queue) :
    (receive_update_sems q).log = q.log := by
  unfold receive_update_sems; dsimp only; split <;> split <;> rfl

@[simp] theorem receive_release_read_sem (q : ptq_queue) (a : Nat) (t : ptq_link) :
    (receive_release q a t).read_sem = q.read_sem := by
  unfold receive_release; rfl

@[simp] theorem receive_release_write_sem (q : ptq_queue) (a : Nat) (t : ptq_link) :
    (receive_release q a t).write_sem = q.write_sem := by
  unfold receive_release; rfl

@[simp] theorem receive_release_empty_sem (q : ptq_queue) (a : Nat) (t : ptq_link) :
    (receive_release q a t).empty_sem = q.empty_sem := by
  unfold receive_release; rfl

@[simp] theorem receive_release_head (q : ptq_queue) (a : Nat) (t : ptq_link) :
    (receive_release q a t).head = q.head := by
  unfold receive_release; rfl

@[simp] theorem receive_release_tail (q : ptq_queue) (a : Nat) (t : ptq_link) :
    (receive_release q a t).tail = q.tail := by
  unfold receive_release; rfl

@[simp] theorem receive_release_max_length (q : ptq_queue) (a : Nat) (t : ptq_link) :
    (receive_release q a t).max_length = q.max_length := by
  unfold receive_release; rfl

@[simp] theorem receive_release_entry_size (q : ptq_queue) (a : Nat) (t : ptq_link) :
    (receive_release q a t).entry_size = q.entry_size := by
  unfold receive_release; rfl

@[simp] theorem receive_release_log (q : ptq_queue) (a : Nat) (t : ptq_link) :
    (receive_release q a t).log = q.log := by
  unfold receive_release; rfl

@[simp] theorem send_drop_link_read_sem (q : ptq_queue) :
    (send_drop_link q).read_sem = q.read_sem := by
  unfold send_drop_link; rfl

@[simp] theorem send_drop_link_write_sem (q : ptq_queue) :
    (send_drop_link q).write_sem = q.write_sem := by
  unfold send_drop_link; rfl

@[simp] theorem send_drop_link_empty_sem (q : ptq_queue) :
    (send_drop_link q).empty_sem = q.empty_sem := by
  unfold send_drop_link; rfl

@[simp] theorem send_drop_link_head (q : ptq_queue) :
    (send_drop_link q).head = q.head := by
  unfold send_drop_link; rfl

@[simp] theorem send_drop_link_tail (q : ptq_queue) :
    (send_drop_link q).tail = q.tail := by
  unfold send_drop_link; rfl

@[simp] theorem send_drop_link_length (q : ptq_queue) :
    (send_drop_link q).length = q.length := by
  unfold send_drop_link; rfl

@[simp] theorem send_drop_link_max_length (q : ptq_queue) :
    (send_drop_link q).max_length = q.max_length := by
  unfold send_drop_link; rfl

@[simp] theorem send_drop_link_entry_size (q : ptq_queue) :
    (send_drop_link q).entry_size = q.entry_size := by
  unfold send_drop_link; rfl

@[simp] theorem send_drop_link_bufs (q : ptq_queue) :
    (send_drop_link q).bufs = q.bufs := by
  unfold send_drop_link; rfl

@[simp] theorem send_drop_link_log (q : ptq_queue) :
    (send_drop_link q).log = q.log := by
  unfold send_drop_link; rfl

/-! ## Heap lemmas -/

theorem Heap.load_store {α : Type} (h : Heap α) (a b : Nat) (v : α) :
    Heap.load (Heap.store h a v) b = if a = b then some v else Heap.load h b := by
  induction h with
  | nil => simp [Heap.store, Heap.load]
  | cons c t ih =>
    obtain ⟨k, w⟩ := c
    by_cases hk : k = a
    · subst hk
      by_cases hb : k = b <;> simp [Heap.store, Heap.load, hb]
    · by_cases hb : k = b
      · subst hb
        have : ¬ a = k := fun e => hk e.symm
        simp [Heap.store, Heap.load, hk, this]
      · simp [Heap.store, Heap.load, hk, hb, ih]

theorem Heap.load_free {α : Type} (h : Heap α) (a b : Nat) :
    Heap.load (Heap.free h a) b = if a = b then none else Heap.load h b := by
  induction h with
  | nil => simp [Heap.free, Heap.load]
  | cons c t ih =>
    obtain ⟨k, w⟩ := c
    by_cases hk : k = a
    · subst hk
      by_cases hb : k = b
      · subst hb
        simp [Heap.free, Heap.load, ih]
      · simp [Heap.free, Heap.load, hb, ih]
    · by_cases hb : k = b
      · subst hb
        have : ¬ a = k := fun e => hk e.symm
        simp [Heap.free, Heap.load, hk, this]
      · simp [Heap.free, Heap.load, hk, hb, ih]

theorem Heap.le_top_of_load {α : Type} (h : Heap α) (a : Nat) (v : α)
    (hl : Heap.load h a = some v) : a ≤ Heap.top h := by
  induction h with
  | nil => simp [Heap.load] at hl
  | cons c t ih =>
    obtain ⟨k, w⟩ := c
    by_cases hk : k = a
    · subst hk
      simp [Heap.top]
    · simp only [Heap.load, hk, if_false] at hl
      have := ih hl
      simp only [Heap.top]
      omega

theorem Heap.load_fresh {α : Type} (h : Heap α) : Heap.load h (Heap.fresh h) = none := by
  cases hl : Heap.load h (Heap.fresh h) with
  | none => rfl
  | some v =>
    have := Heap.le_top_of_load h _ v hl
    simp only [Heap.fresh] at this
    omega

theorem Heap.fresh_ne_of_load {α : Type} (h : Heap α) (a : Nat) (v : α)
    (hl : Heap.load h a = some v) : a ≠ Heap.fresh h := by
  intro e
  rw [e, Heap.load_fresh] at hl
  cases hl

theorem Heap.fresh_ne_zero {α : Type} (h : Heap α) : Heap.fresh h ≠ 0 := by
  simp [Heap.fresh]

theorem Heap.free_store_of_load_none {α : Type} (h : Heap α) (a : Nat) (v : α)
    (hl : Heap.load h a = none) : Heap.free (Heap.store h a v) a = h := by
  induction h with
  | nil => simp [Heap.store, Heap.free]
  | cons c t ih =>
    obtain ⟨k, w⟩ := c
    by_cases hk : k = a
    · simp [Heap.load, hk] at hl
    · simp only [Heap.load, hk, if_false] at hl
      simp [Heap.store, Heap.free, hk, ih hl]

theorem Heap.store_store {α : Type} (h : Heap α) (a : Nat) (v w : α) :
    Heap.store (Heap.store h a v) a w = Heap.store h a w := by
  induction h with
  | nil => simp [Heap.store]
  | cons c t ih =>
    obtain ⟨k, u⟩ := c
    by_cases hk : k = a
    · simp [Heap.store, hk]
    · simp [Heap.store, hk, ih]

theorem memcpy_replicate (object : List Nat) (n : Nat) :
    memcpy (List.replicate n 0) object n = object.take n := by
  simp [memcpy]

/-! ## The chain under heap updates -/

theorem Chain.frame {links links2 : Heap ptq_link} {bufs bufs2 : Heap (List Nat)}
    (ns : List Node) (older : Nat)
    (hl : ∀ n ∈ ns, Heap.load links2 n.addr = Heap.load links n.addr)
    (hb : ∀ n ∈ ns, Heap.load bufs2 n.mem = Heap.load bufs n.mem)
    (hc : Chain links bufs older ns) : Chain links2 bufs2 older ns := by
  induction ns generalizing older with
  | nil => trivial
  | cons n t ih =>
    obtain ⟨h0, h1, h2, h3⟩ := hc
    refine ⟨h0, ?_, ?_, ?_⟩
    · rw [hl n (List.mem_cons_self _ _)]; exact h1
    · rw [hb n (List.mem_cons_self _ _)]; exact h2
    · exact ih _ (fun m hm => hl m (List.mem_cons_of_mem _ hm))
        (fun m hm => hb m (List.mem_cons_of_mem _ hm)) h3

theorem Chain.load_of_mem {links : Heap ptq_link} {bufs : Heap (List Nat)}
    (ns : List Node) (older : Nat) (hc : Chain links bufs older ns) (n : Node) (hn : n ∈ ns) :
    (∃ l, Heap.load links n.addr = some l) ∧ Heap.load bufs n.mem = some n.bytes := by
  induction ns generalizing older with
  | nil => cases hn
  | cons m t ih =>
    obtain ⟨_, h1, h2, h3⟩ := hc
    rcases List.mem_cons.1 hn with rfl | hn
    · exact ⟨⟨_, h1⟩, h2⟩
    · exact ih _ h3 hn

/-- Appending a node: the new link is stored at `a` with `next` the old head, and the
old head (when there is one) gets `prev := a`. -/
theorem Chain.snoc {links links2 : Heap ptq_link} {bufs bufs2 : Heap (List Nat)}
    (ns : List Node) (older : Nat) (a m : Nat) (bytes : List Nat) (ha : a ≠ 0)
    (hnew : Heap.load links2 a = some (ptq_link.mk 0 (if ns = [] then older else last_addr ns) m))
    (hmem : Heap.load bufs2 m = some bytes)
    (hlast : ∀ l, ns ≠ [] → Heap.load links (last_addr ns) = some l →
      Heap.load links2 (last_addr ns) = some { l with prev := a })
    (hl : ∀ n ∈ ns, n.addr ≠ last_addr ns → Heap.load links2 n.addr = Heap.load links n.addr)
    (hb : ∀ n ∈ ns, Heap.load bufs2 n.mem = Heap.load bufs n.mem)
    (hnd : (ns.map Node.addr).Nodup)
    (hc : Chain links bufs older ns) :
    Chain links2 bufs2 older (ns ++ [Node.mk a m bytes]) := by
  induction ns generalizing older with
  | nil =>
    simp only [List.nil_append, Chain, first_addr]
    simp only [if_true] at hnew
    exact ⟨ha, hnew, hmem, trivial⟩
  | cons n t ih =>
    obtain ⟨h0, h1, h2, h3⟩ := hc
    cases t with
    | nil =>
      simp only [List.cons_append, List.nil_append, Chain, first_addr]
      have hlast2 := hlast _ (by simp) (by simpa [last_addr] using h1)
      simp only [last_addr] at hlast2
      refine ⟨h0, ?_, ?_, ha, ?_, hmem, trivial⟩
      · simpa [first_addr] using hlast2
      · rw [hb n (List.mem_cons_self _ _)]; exact h2
      · simpa [last_addr] using hnew
    | cons n2 t2 =>
      have hnd2 : ((n2 :: t2).map Node.addr).Nodup := (List.nodup_cons.1 hnd).2
      have hnotin : n.addr ∉ (n2 :: t2).map Node.addr := (List.nodup_cons.1 hnd).1
      have hlast_mem : ∀ (l : List Node), l ≠ [] → last_addr l ∈ l.map Node.addr := by
        intro l
        induction l with
        | nil => intro h; exact absurd rfl h
        | cons x xs ihx =>
          intro _
          cases xs with
          | nil => simp [last_addr]
          | cons y ys =>
            have := ihx (by simp)
            simp only [last_addr]
            exact List.mem_cons_of_mem _ this
      have hne : n.addr ≠ last_addr (n :: n2 :: t2) := by
        simp only [last_addr]
        intro e
        exact hnotin (e ▸ hlast_mem (n2 :: t2) (by simp))
      refine ⟨h0, ?_, ?_, ?_⟩
      · rw [hl n (List.mem_cons_self _ _) hne]
        simpa [first_addr] using h1
      · rw [hb n (List.mem_cons_self _ _)]; exact h2
      · have := ih n.addr
          (by simpa [last_addr] using hnew)
          (fun l _ hload => by
            have := hlast l (by simp) (by simpa [last_addr] using hload)
            simpa [last_addr] using this)
          (fun x hx hxne => hl x (List.mem_cons_of_mem _ hx) (by simpa [last_addr] using hxne))
          (fun x hx => hb x (List.mem_cons_of_mem _ hx))
          hnd2 h3
        simpa using this


theorem send_update_sems_write_sem (q : ptq_queue) :
    (send_update_sems q).write_sem =
      if q.length < q.max_length then q.write_sem + 1 else q.write_sem := by
  unfold send_update_sems sem_post; dsimp only; split <;> split <;> rfl

theorem send_update_sems_read_sem (q : ptq_queue) :
    (send_update_sems q).read_sem = if q.length = 1 then q.read_sem + 1 else q.read_sem := by
  unfold send_update_sems sem_post; dsimp only; split <;> split <;> rfl

theorem send_update_sems_empty_sem (q : ptq_queue) :
    (send_update_sems q).empty_sem = if q.length = 1 then q.empty_sem - 1 else q.empty_sem := by
  unfold send_update_sems sem_trywait
  dsimp only
  by_cases h0 : q.empty_sem = 0 <;> split <;> split <;> simp_all

theorem receive_update_sems_write_sem (q : ptq_queue) :
    (receive_update_sems q).write_sem =
      if q.length = size_dec q.max_length then q.write_sem + 1 else q.write_sem := by
  unfold receive_update_sems sem_post; dsimp only; split <;> split <;> rfl

theorem receive_update_sems_read_sem (q : ptq_queue) :
    (receive_update_sems q).read_sem = if q.length ≠ 0 then q.read_sem + 1 else q.read_sem := by
  unfold receive_update_sems sem_post; dsimp only; split <;> split <;> rfl

theorem receive_update_sems_empty_sem (q : ptq_queue) :
    (receive_update_sems q).empty_sem =
      if q.length ≠ 0 then q.empty_sem else q.empty_sem + 1 := by
  unfold receive_update_sems sem_post; dsimp only; split <;> split <;> rfl

theorem last_addr_mem (ns : List Node) (h : ns ≠ []) : ∃ n ∈ ns, n.addr = last_addr ns := by
  induction ns with
  | nil => exact absurd rfl h
  | cons x xs ih =>
    cases xs with
    | nil => exact ⟨x, List.mem_cons_self _ _, rfl⟩
    | cons y ys =>
      obtain ⟨n, hn, e⟩ := ih (by simp)
      exact ⟨n, List.mem_cons_of_mem _ hn, by simpa [last_addr] using e⟩

theorem last_addr_append (ns : List Node) (n : Node) : last_addr (ns ++ [n]) = n.addr := by
  induction ns with
  | nil => rfl
  | cons x xs ih =>
    cases xs with
    | nil => simp [last_addr]
    | cons y ys => simpa [last_addr] using ih

theorem first_addr_append (ns : List Node) (n : Node) :
    first_addr (ns ++ [n]) = if ns = [] then n.addr else first_addr ns := by
  cases ns <;> simp [first_addr]

theorem Chain.addr_ne_zero {links : Heap ptq_link} {bufs : Heap (List Nat)}
    (ns : List Node) (older : Nat) (hc : Chain links bufs older ns) (n : Node) (hn : n ∈ ns) :
    n.addr ≠ 0 := by
  induction ns generalizing older with
  | nil => cases hn
  | cons m t ih =>
    obtain ⟨h0, _, _, h3⟩ := hc
    rcases List.mem_cons.1 hn with rfl | hn
    · exact h0
    · exact ih _ h3 hn

theorem size_inc_of_lt (n : Nat) (h : n < SIZE_MAX) : size_inc n = n + 1 := by
  unfold size_inc
  exact Nat.mod_eq_of_lt (by omega)

theorem size_dec_of_pos (n : Nat) (h0 : 0 < n) (h : n ≤ SIZE_MAX) : size_dec n = n - 1 := by
  unfold size_dec
  have : n + SIZE_MAX = (n - 1) + (SIZE_MAX + 1) := by omega
  rw [this, Nat.add_mod_right]
  exact Nat.mod_eq_of_lt (by omega)

theorem Shape.congr_shape {q q2 : ptq_queue} {ns : List Node} (h : Shape q ns)
    (h4 : q2.head = q.head) (h5 : q2.tail = q.tail) (h6 : q2.length = q.length)
    (h9 : q2.links = q.links) (h10 : q2.bufs = q.bufs) : Shape q2 ns where
  chain := by rw [h9, h10]; exact h.chain
  nodup_addr := h.nodup_addr
  nodup_mem := h.nodup_mem
  tail_eq := h5 ▸ h.tail_eq
  head_eq := h4 ▸ h.head_eq
  length_eq := h6 ▸ h.length_eq

theorem Shape.fresh_not_mem_addr {q : ptq_queue} {ns : List Node} (h : Shape q ns) :
    Heap.fresh q.links ∉ ns.map Node.addr := by
  intro hmem
  obtain ⟨n, hn, e⟩ := List.mem_map.1 hmem
  obtain ⟨⟨l, hl⟩, _⟩ := Chain.load_of_mem ns 0 h.chain n hn
  exact Heap.fresh_ne_of_load _ _ _ hl e

theorem Shape.fresh_not_mem_mem {q : ptq_queue} {ns : List Node} (h : Shape q ns) :
    Heap.fresh q.bufs ∉ ns.map Node.mem := by
  intro hmem
  obtain ⟨n, hn, e⟩ := List.mem_map.1 hmem
  obtain ⟨_, hl⟩ := Chain.load_of_mem ns 0 h.chain n hn
  exact Heap.fresh_ne_of_load _ _ _ hl e

/-- The insertion of lines 113-140 on a queue with a well-formed list. -/
theorem send_enlink_spec {q : ptq_queue} {ns : List Node}
    (hs : Shape q ns) (hroom : ns.length < SIZE_MAX) (object : List Nat) :
    ∃ q3, send_enlink (send_new_link q object).2 (send_new_link q object).1 = some q3 ∧
      q3.read_sem = q.read_sem ∧ q3.write_sem = q.write_sem ∧ q3.empty_sem = q.empty_sem ∧
      q3.max_length = q.max_length ∧ q3.entry_size = q.entry_size ∧ q3.log = q.log ∧
      Shape q3
        (ns ++ [Node.mk (Heap.fresh q.links) (Heap.fresh q.bufs) (object.take q.entry_size)]) := by
  have hlen : size_inc q.length = ns.length + 1 := by
    rw [hs.length_eq]
    exact size_inc_of_lt _ hroom
  have hbuf : ∀ n ∈ ns, Heap.load
      (Heap.store (Heap.store q.bufs (Heap.fresh q.bufs) (List.replicate q.entry_size 0))
        (Heap.fresh q.bufs) (memcpy (List.replicate q.entry_size 0) object q.entry_size)) n.mem
      = Heap.load q.bufs n.mem := by
    intro n hn
    have h1 := (Chain.load_of_mem ns 0 hs.chain n hn).2
    have h2 := Heap.fresh_ne_of_load _ _ _ h1
    simp [Heap.load_store, Ne.symm h2]
  have hnew : Heap.load
      (Heap.store (Heap.store q.bufs (Heap.fresh q.bufs) (List.replicate q.entry_size 0))
        (Heap.fresh q.bufs) (memcpy (List.replicate q.entry_size 0) object q.entry_size))
      (Heap.fresh q.bufs) = some (object.take q.entry_size) := by
    simp [Heap.load_store, memcpy_replicate]
  have hnda : ((ns ++ [Node.mk (Heap.fresh q.links) (Heap.fresh q.bufs)
      (object.take q.entry_size)]).map Node.addr).Nodup := by
    rw [List.map_append, List.nodup_append]
    refine ⟨hs.nodup_addr, by simp, ?_⟩
    intro a ha hb
    simp only [List.map_cons, List.map_nil, List.mem_singleton] at hb
    exact hs.fresh_not_mem_addr (hb ▸ ha)
  have hndm : ((ns ++ [Node.mk (Heap.fresh q.links) (Heap.fresh q.bufs)
      (object.take q.entry_size)]).map Node.mem).Nodup := by
    rw [List.map_append, List.nodup_append]
    refine ⟨hs.nodup_mem, by simp, ?_⟩
    intro a ha hb
    simp only [List.map_cons, List.map_nil, List.mem_singleton] at hb
    exact hs.fresh_not_mem_mem (hb ▸ ha)
  by_cases hns : ns = []
  · subst hns
    have hhead : q.head = 0 := hs.head_eq
    simp only [send_enlink, send_new_link, malloc, hhead, ne_eq, not_true_eq_false, if_false]
    refine ⟨_, rfl, rfl, rfl, rfl, rfl, rfl, rfl, ?_, hnda, hndm, ?_, ?_, ?_⟩
    · simp only [List.nil_append, Chain, first_addr]
      refine ⟨Heap.fresh_ne_zero _, ?_, hnew, trivial⟩
      simp [Heap.load_store]
    · simp [first_addr]
    · simp [last_addr]
    · simpa using hlen
  · obtain ⟨nl, hnl, hnle⟩ := last_addr_mem ns hns
    have hhead : q.head = nl.addr := by rw [hs.head_eq, hnle]
    have hne0 : nl.addr ≠ 0 := Chain.addr_ne_zero ns 0 hs.chain nl hnl
    obtain ⟨⟨l, hl⟩, _⟩ := Chain.load_of_mem ns 0 hs.chain nl hnl
    have hfr : nl.addr ≠ Heap.fresh q.links := Heap.fresh_ne_of_load _ _ _ hl
    simp only [send_enlink, send_new_link, malloc, hhead, ne_eq, hne0, not_false_eq_true,
      if_true, Heap.load_store, Ne.symm hfr, if_false, hl]
    refine ⟨_, rfl, rfl, rfl, rfl, rfl, rfl, rfl, ?_, hnda, hndm, ?_, ?_, ?_⟩
    · simp only
      refine Chain.snoc ns 0 _ _ _ (Heap.fresh_ne_zero _) ?_ hnew ?_ ?_ hbuf hs.nodup_addr
        hs.chain
      · simp [Heap.load_store, hns, Ne.symm hfr, hfr, ← hnle]
      · intro l2 _ hl2
        rw [← hnle] at hl2 ⊢
        rw [hl] at hl2
        cases hl2
        simp [Heap.load_store]
      · intro n hn hnne
        have h1 := (Chain.load_of_mem ns 0 hs.chain n hn).1
        obtain ⟨l3, hl3⟩ := h1
        have h2 := Heap.fresh_ne_of_load _ _ _ hl3
        rw [← hnle] at hnne
        simp [Heap.load_store, Ne.symm h2, Ne.symm hnne]
    · simp only [first_addr_append, hns, if_false]
      exact hs.tail_eq
    · simp [last_addr_append]
    · simpa using hlen

/-- A send that holds the `writable` token and whose allocations succeed appends a
node with the first `entry_size` bytes of `object`. -/
theorem send_nonblock_locked_ok {es ml : Nat} {q : ptq_queue} {ns : List Node}
    (hinv : Inv es ml q ns) (hroom : ns.length < ml) (hw0 : q.write_sem = 0)
    (object : List Nat) (mtx : Nat) :
    ∃ q2, ptq_send_nonblock_locked q object mtx Alloc.ok = Res.ret (true, q2) ∧
      Inv es ml q2
        (ns ++ [Node.mk (Heap.fresh q.links) (Heap.fresh q.bufs) (object.take es)]) ∧
      NoLeak q2 := by
  have hs1 : Shape (q.logged Event.lock_queue) ns :=
    hinv.shape.congr_shape (by simp) (by simp) (by simp) (by simp) (by simp)
  obtain ⟨q3, hq3, hr, hw, he, hm, hes, _, hs3⟩ :=
    send_enlink_spec hs1 (by have := hinv.max_le; omega) object
  simp only [ptq_queue.logged_read_sem, ptq_queue.logged_write_sem,
    ptq_queue.logged_empty_sem, ptq_queue.logged_max_length,
    ptq_queue.logged_entry_size, ptq_queue.logged_links, ptq_queue.logged_bufs,
    hinv.entry_size_eq, hinv.max_length_eq] at hr hw he hm hes hs3
  have hl := hs3.length_eq
  simp only [List.length_append, List.length_cons, List.length_nil] at hl
  simp only [ptq_send_nonblock_locked, hq3]
  refine ⟨_, rfl, ?_, ?_⟩
  · constructor
    · exact hs3.congr_shape (by simp) (by simp) (by simp) (by simp) (by simp)
    · simp [hes]
    · simp [hm]
    · exact hinv.max_pos
    · exact hinv.max_le
    · simp; omega
    · simp only [ptq_queue.logged_read_sem, lock_other_read_sem, send_update_sems_read_sem,
        hl, hr, hinv.read_eq]
      cases ns <;> simp
    · simp only [ptq_queue.logged_empty_sem, lock_other_empty_sem, send_update_sems_empty_sem,
        hl, he, hinv.empty_eq]
      cases ns <;> simp
    · simp only [ptq_queue.logged_write_sem, lock_other_write_sem, send_update_sems_write_sem,
        hl, hw, hw0, hm, List.length_append, List.length_cons, List.length_nil]
      by_cases h : ns.length + 1 < ml
      · right; simp [h]
      · left; simp [h]
  · intro hlt
    simp only [ptq_queue.logged_write_sem, lock_other_write_sem, send_update_sems_write_sem,
      ptq_queue.logged_length, lock_other_length, send_update_sems_length,
      ptq_queue.logged_max_length, lock_other_max_length, send_update_sems_max_length,
      hl, hw, hw0, hm] at hlt ⊢
    simp [hlt]

theorem first_addr_nil : first_addr [] = 0 := rfl

theorem first_addr_cons (n : Node) (ns : List Node) : first_addr (n :: ns) = n.addr := rfl

/-- The removal of lines 242-256 on a queue with a well-formed, non-empty list. -/
theorem receive_unlink_spec {q : ptq_queue} {n : Node} {ns : List Node}
    (hs : Shape q (n :: ns)) (hle : q.length ≤ SIZE_MAX) :
    q.tail ≠ 0 ∧
    Heap.load q.links q.tail = some (ptq_link.mk (first_addr ns) 0 n.mem) ∧
    ∃ q2, receive_unlink q (ptq_link.mk (first_addr ns) 0 n.mem) = some q2 ∧
      Heap.load q2.bufs n.mem = some n.bytes ∧ q2.entry_size = q.entry_size ∧
      q2.read_sem = q.read_sem ∧ q2.write_sem = q.write_sem ∧ q2.empty_sem = q.empty_sem ∧
      q2.max_length = q.max_length ∧ q2.log = q.log ∧
      Shape (receive_release q2 q.tail (ptq_link.mk (first_addr ns) 0 n.mem)) ns := by
  obtain ⟨h0, h1, h2, h3⟩ := hs.chain
  have htail : q.tail = n.addr := hs.tail_eq
  have hlen : size_dec q.length = ns.length := by
    have e := hs.length_eq
    simp only [List.length_cons] at e
    rw [size_dec_of_pos _ (by omega) hle, e]
    rfl
  refine ⟨htail ▸ h0, htail ▸ h1, ?_⟩
  cases ns with
  | nil =>
    simp only [receive_unlink, first_addr_nil, ne_eq, not_true_eq_false, if_false]
    refine ⟨_, rfl, h2, rfl, rfl, rfl, rfl, rfl, rfl, ?_⟩
    exact ⟨trivial, by simp, by simp, rfl, rfl, by simpa [receive_release] using hlen⟩
  | cons n2 t2 =>
    obtain ⟨g0, g1, g2, g3⟩ := h3
    have hnda := hs.nodup_addr
    have hndm := hs.nodup_mem
    simp only [List.map_cons, List.nodup_cons, List.mem_cons, List.mem_map, not_or] at hnda hndm
    obtain ⟨⟨ha1, ha2⟩, ha3, ha4⟩ := hnda
    obtain ⟨⟨hm1, hm2⟩, hm3, hm4⟩ := hndm
    simp only [receive_unlink, first_addr_cons, ne_eq, g0, not_false_eq_true, if_true, g1]
    refine ⟨_, rfl, h2, rfl, rfl, rfl, rfl, rfl, rfl, ?_⟩
    refine ⟨⟨g0, ?_, ?_, ?_⟩, ?_, ?_, rfl, ?_, ?_⟩
    · simp [receive_release, Heap.load_free, Heap.load_store, htail, ha1]
    · simp [receive_release, Heap.load_free, hm1, g2]
    · refine Chain.frame t2 n2.addr ?_ ?_ g3
      · intro x hx
        have e1 : ¬ n.addr = x.addr := fun e => ha2 ⟨x, hx, e.symm⟩
        have e2 : ¬ n2.addr = x.addr := fun e => ha3 ⟨x, hx, e.symm⟩
        simp [receive_release, Heap.load_free, Heap.load_store, htail, e1, e2]
      · intro x hx
        have e1 : ¬ n.mem = x.mem := fun e => hm2 ⟨x, hx, e.symm⟩
        simp [receive_release, Heap.load_free, e1]
    · exact (List.nodup_cons.1 hs.nodup_addr).2
    · exact (List.nodup_cons.1 hs.nodup_mem).2
    · simpa [receive_release, last_addr] using hs.head_eq
    · simpa [receive_release] using hlen

/-- The semaphores after a removal from a queue that satisfied the invariant, the
`readable` token being taken. -/
theorem receive_finish {es ml : Nat} {q q2 : ptq_queue} {n : Node} {ns : List Node}
    (hinv : Inv es ml q (n :: ns)) (t : ptq_link) (a mtx : Nat)
    (hs : Shape (receive_release q2 a t) ns)
    (hes : q2.entry_size = es) (hr : q2.read_sem = 0) (hw : q2.write_sem = q.write_sem)
    (he : q2.empty_sem = q.empty_sem) (hm : q2.max_length = ml) :
    Inv es ml
      ((lock_other (receive_update_sems (receive_release q2 a t)) mtx).logged
        Event.unlock_queue) ns ∧
    (NoLeak q →
      NoLeak ((lock_other (receive_update_sems (receive_release q2 a t)) mtx).logged
        Event.unlock_queue)) := by
  have hl := hs.length_eq
  have hdec : size_dec ml = ml - 1 := size_dec_of_pos _ hinv.max_pos hinv.max_le
  have hlen := hinv.length_le
  have hpos := hinv.max_pos
  have hwl := hinv.write_le
  have hemp := hinv.empty_eq
  simp only [List.length_cons] at hlen hwl hemp
  simp only [Nat.add_one_ne_zero, if_false] at hemp
  constructor
  · constructor
    · exact hs.congr_shape (by simp) (by simp) (by simp) (by simp) (by simp)
    · simp [hes]
    · simp [hm]
    · exact hinv.max_pos
    · exact hinv.max_le
    · omega
    · simp only [ptq_queue.logged_read_sem, lock_other_read_sem, receive_update_sems_read_sem,
        hl, receive_release_read_sem, hr]
      split <;> simp_all
    · simp only [ptq_queue.logged_empty_sem, lock_other_empty_sem,
        receive_update_sems_empty_sem, hl, receive_release_empty_sem, he, hemp]
      split <;> simp_all
    · simp only [ptq_queue.logged_write_sem, lock_other_write_sem,
        receive_update_sems_write_sem, hl, receive_release_write_sem, hw,
        receive_release_max_length, hm, hdec]
      rcases hwl with h | ⟨h, h2⟩
      · by_cases hc : ns.length = ml - 1
        · right; simp only [hc, if_true, h]; exact ⟨trivial, by omega⟩
        · left; simp only [hc, if_false, h]
      · right
        have hc : ¬ ns.length = ml - 1 := by omega
        simp only [hc, if_false, h]; exact ⟨trivial, by omega⟩
  · intro hnl _
    simp only [NoLeak, hinv.shape.length_eq, hinv.max_length_eq, List.length_cons] at hnl
    simp only [ptq_queue.logged_write_sem, lock_other_write_sem,
      receive_update_sems_write_sem, hl, receive_release_write_sem, hw,
      receive_release_max_length, hm, hdec]
    rcases hwl with h | ⟨h, h2⟩
    · have hc : ns.length = ml - 1 := by
        by_contra hc
        have := hnl (by omega)
        omega
      simp only [hc, if_true, h]
    · have hc : ¬ ns.length = ml - 1 := by omega
      simp only [hc, if_false, h]

/-- A non-blocking receive on a non-empty queue removes the oldest node and copies
its bytes over the first `entry_size` bytes of the caller's buffer. -/
theorem receive_nonblock_ok {es ml : Nat} {q : ptq_queue} {n : Node} {ns : List Node}
    (hinv : Inv es ml q (n :: ns)) (dst : List Nat) (mtx : Nat) :
    ∃ q2, ptq_receive_nonblock q (some dst) mtx =
        Res.ret (true, some (memcpy dst n.bytes es), q2) ∧
      Inv es ml q2 ns ∧ (NoLeak q → NoLeak q2) := by
  have hread : q.read_sem = 1 := by simpa using hinv.read_eq
  have hs1 : Shape (({ q with read_sem := 1 - 1 } : ptq_queue).logged Event.lock_queue)
      (n :: ns) :=
    hinv.shape.congr_shape (by simp) (by simp) (by simp) (by simp) (by simp)
  obtain ⟨ht0, hload, q2, hq2, hbuf, hes, hr, hw, he, hm, _, hs2⟩ :=
    receive_unlink_spec hs1
      (by simp only [ptq_queue.logged_length, hinv.shape.length_eq]
          have := hinv.length_le; have := hinv.max_le; omega)
  simp only [ptq_receive_nonblock, sem_trywait, hread, Nat.one_ne_zero, if_false,
    ptq_receive_nonblock_locked, ht0, hload, hq2, hbuf]
  have hes2 : q2.entry_size = es := by rw [hes]; simpa using hinv.entry_size_eq
  rw [hes2]
  refine ⟨_, rfl, ?_⟩
  exact receive_finish hinv _ _ mtx hs2 hes2 (by rw [hr]; simp) (by rw [hw]; simp)
    (by rw [he]; simp) (by rw [hm]; simpa using hinv.max_length_eq)

/-- A blocking receive on a non-empty queue removes the oldest node and, when the
caller gave a buffer, copies its bytes over the first `entry_size` bytes of it. -/
theorem receive_block_ok {es ml : Nat} {q : ptq_queue} {n : Node} {ns : List Node}
    (hinv : Inv es ml q (n :: ns)) (object : Option (List Nat)) (mtx : Nat) :
    ∃ q2, ptq_receive_block q object mtx =
        Res.ret (true, object.map (fun dst => memcpy dst n.bytes es), q2) ∧
      Inv es ml q2 ns ∧ (NoLeak q → NoLeak q2) := by
  have hread : q.read_sem = 1 := by simpa using hinv.read_eq
  have hs1 : Shape (({ q with read_sem := 1 - 1 } : ptq_queue).logged Event.lock_queue)
      (n :: ns) :=
    hinv.shape.congr_shape (by simp) (by simp) (by simp) (by simp) (by simp)
  obtain ⟨ht0, hload, q2, hq2, hbuf, hes, hr, hw, he, hm, _, hs2⟩ :=
    receive_unlink_spec hs1
      (by simp only [ptq_queue.logged_length, hinv.shape.length_eq]
          have := hinv.length_le; have := hinv.max_le; omega)
  have hes2 : q2.entry_size = es := by rw [hes]; simpa using hinv.entry_size_eq
  have hfin := receive_finish hinv (ptq_link.mk (first_addr ns) 0 n.mem)
    (({ q with read_sem := 1 - 1 } : ptq_queue).logged Event.lock_queue).tail mtx hs2 hes2
    (by rw [hr]; simp) (by rw [hw]; simp)
    (by rw [he]; simp) (by rw [hm]; simpa using hinv.max_length_eq)
  cases object with
  | none =>
    simp only [ptq_receive_block, sem_wait, hread, Nat.one_ne_zero, if_false,
      ptq_receive_block_locked, ht0, hload, hq2, Option.map_none']
    exact ⟨_, rfl, hfin⟩
  | some dst =>
    simp only [ptq_receive_block, sem_wait, hread, Nat.one_ne_zero, if_false,
      ptq_receive_block_locked, ht0, hload, hq2, hbuf, Option.map_some', hes2]
    exact ⟨_, rfl, hfin⟩

theorem send_block_locked_eq (q : ptq_queue) (object : List Nat) (mtx : Nat) (alloc : Alloc) :
    ptq_send_block_locked q object mtx alloc = ptq_send_nonblock_locked q object mtx alloc :=
  rfl

/-- The link that is allocated and freed again when the buffer allocation fails leaves
the heap as it was. -/
theorem send_drop_link_links (q : ptq_queue) : (send_drop_link q).links = q.links := by
  simp only [send_drop_link, malloc, Heap.store_store]
  exact Heap.free_store_of_load_none _ _ _ (Heap.load_fresh _)

/-- A send whose allocation fails, the token being taken: only the log changes. -/
theorem send_nonblock_locked_fail (q : ptq_queue) (object : List Nat) (mtx : Nat)
    (alloc : Alloc) (ha : alloc ≠ Alloc.ok) :
    ptq_send_nonblock_locked q object mtx alloc =
      Res.ret (false, { q with log := q.log ++ [Event.lock_queue, Event.unlock_queue] }) := by
  have hd : send_drop_link (q.logged Event.lock_queue) = q.logged Event.lock_queue := by
    have h := send_drop_link_links (q.logged Event.lock_queue)
    simp only [send_drop_link, malloc] at h ⊢
    rw [h]
  cases alloc with
  | ok => exact absurd rfl ha
  | no_link => simp [ptq_send_nonblock_locked, ptq_queue.logged]
  | no_memory =>
    simp only [ptq_send_nonblock_locked, hd]
    simp [ptq_queue.logged]

theorem Inv.congr_inv {es ml : Nat} {q q2 : ptq_queue} {ns : List Node} (h : Inv es ml q ns)
    (h1 : q2.read_sem = q.read_sem) (h2 : q2.write_sem = q.write_sem)
    (h3 : q2.empty_sem = q.empty_sem) (h4 : q2.head = q.head) (h5 : q2.tail = q.tail)
    (h6 : q2.length = q.length) (h7 : q2.max_length = q.max_length)
    (h8 : q2.entry_size = q.entry_size) (h9 : q2.links = q.links) (h10 : q2.bufs = q.bufs) :
    Inv es ml q2 ns where
  shape := h.shape.congr_shape h4 h5 h6 h9 h10
  entry_size_eq := h8 ▸ h.entry_size_eq
  max_length_eq := h7 ▸ h.max_length_eq
  max_pos := h.max_pos
  max_le := h.max_le
  length_le := h.length_le
  read_eq := h1 ▸ h.read_eq
  empty_eq := h3 ▸ h.empty_eq
  write_le := h2 ▸ h.write_le

/-- Taking the `writable` token keeps the invariant. -/
theorem Inv.take_write {es ml : Nat} {q : ptq_queue} {ns : List Node} (h : Inv es ml q ns)
    (v : Nat) (hv : v = 0) : Inv es ml { q with write_sem := v } ns where
  shape := h.shape.congr_shape rfl rfl rfl rfl rfl
  entry_size_eq := h.entry_size_eq
  max_length_eq := h.max_length_eq
  max_pos := h.max_pos
  max_le := h.max_le
  length_le := h.length_le
  read_eq := h.read_eq
  empty_eq := h.empty_eq
  write_le := Or.inl hv

/-- The freshly created queue satisfies the invariant, with no node. -/
theorem create_inv {es ml : Nat} {env : InitEnv} {q0 : ptq_queue} (hml : ml ≤ SIZE_MAX)
    (h : ptq_create_max es ml env = some q0) :
    Inv es (if ml = 0 then 1 else ml) q0 [] ∧ NoLeak q0 ∧ q0.log = [] := by
  unfold ptq_create_max at h
  simp only at h
  split at h
  · cases h
  · split at h
    · cases h
    · split at h
      · cases h
      · split at h
        · cases h
        · split at h
          · cases h
          · cases h
            refine ⟨⟨⟨trivial, by simp, by simp, rfl, rfl, rfl⟩, rfl, rfl, ?_, ?_, ?_, rfl, rfl,
              ?_⟩, ?_, rfl⟩
            · split <;> omega
            · split
              · simp [SIZE_MAX]
              · exact hml
            · simp
            · right
              refine ⟨rfl, ?_⟩
              simp only [List.length_nil]
              split <;> omega
            · intro _; rfl

/-! ## Complete calls on a queue that satisfies the invariant -/

theorem send_block_eq (q : ptq_queue) (object : List Nat) (mtx : Nat) (alloc : Alloc) :
    ptq_send_block q object mtx alloc =
      if q.write_sem = 0 then Res.blocked else ptq_send_nonblock q object mtx alloc := by
  by_cases h : q.write_sem = 0
  · simp [ptq_send_block, sem_wait, h]
  · simp only [ptq_send_block, ptq_send_nonblock, sem_wait, sem_trywait, h, if_false]
    rfl

/-- The three ways a non-blocking send ends on a queue that satisfies the invariant. -/
theorem send_nonblock_cases {es ml : Nat} {q : ptq_queue} {ns : List Node}
    (hinv : Inv es ml q ns) (object : List Nat) (mtx : Nat) (alloc : Alloc) :
    (q.write_sem = 0 ∧ ptq_send_nonblock q object mtx alloc = Res.ret (false, q)) ∨
    (q.write_sem = 1 ∧ alloc ≠ Alloc.ok ∧
      ptq_send_nonblock q object mtx alloc = Res.ret (false,
        { q with write_sem := 0, log := q.log ++ [Event.lock_queue, Event.unlock_queue] })) ∨
    (q.write_sem = 1 ∧ alloc = Alloc.ok ∧ ∃ q2,
      ptq_send_nonblock q object mtx alloc = Res.ret (true, q2) ∧
      Inv es ml q2
        (ns ++ [Node.mk (Heap.fresh q.links) (Heap.fresh q.bufs) (object.take es)]) ∧
      NoLeak q2) := by
  rcases hinv.write_le with h0 | ⟨h1, hroom⟩
  · left
    exact ⟨h0, by simp [ptq_send_nonblock, sem_trywait, h0]⟩
  · right
    by_cases ha : alloc = Alloc.ok
    · right
      subst ha
      obtain ⟨q2, hq2, hi, hn⟩ :=
        send_nonblock_locked_ok (hinv.take_write 0 rfl) hroom rfl object mtx
      refine ⟨h1, rfl, q2, ?_, hi, hn⟩
      simp only [ptq_send_nonblock, sem_trywait, h1, Nat.one_ne_zero, if_false]
      exact hq2
    · left
      refine ⟨h1, ha, ?_⟩
      simp only [ptq_send_nonblock, sem_trywait, h1, Nat.one_ne_zero, if_false]
      exact send_nonblock_locked_fail _ object mtx alloc ha

theorem receive_block_eq (q : ptq_queue) (dst : List Nat) (mtx : Nat)
    (h : q.read_sem ≠ 0) (ht : q.tail ≠ 0) :
    ptq_receive_block q (some dst) mtx = ptq_receive_nonblock q (some dst) mtx := by
  simp only [ptq_receive_block, ptq_receive_nonblock, sem_wait, sem_trywait, h, if_false,
    ptq_receive_block_locked, ptq_receive_nonblock_locked, ptq_queue.logged_tail, ht]
  cases Heap.load (ptq_queue.logged { q with read_sem := q.read_sem - 1 }
    Event.lock_queue).links q.tail with
  | none => rfl
  | some t =>
    simp only
    cases receive_unlink (ptq_queue.logged { q with read_sem := q.read_sem - 1 }
      Event.lock_queue) t with
    | none => rfl
    | some q2 =>
      simp only
      cases Heap.load q2.bufs t.memory <;> rfl

/-- A receive on the empty queue: the non-blocking call misses. -/
theorem receive_nonblock_empty {es ml : Nat} {q : ptq_queue} (hinv : Inv es ml q [])
    (object : Option (List Nat)) (mtx : Nat) :
    ptq_receive_nonblock q object mtx = Res.ret (false, object, q) := by
  have h : q.read_sem = 0 := by simpa using hinv.read_eq
  simp [ptq_receive_nonblock, sem_trywait, h]

theorem receive_block_empty {es ml : Nat} {q : ptq_queue} (hinv : Inv es ml q [])
    (object : Option (List Nat)) (mtx : Nat) :
    ptq_receive_block q object mtx = Res.blocked := by
  have h : q.read_sem = 0 := by simpa using hinv.read_eq
  simp [ptq_receive_block, sem_wait, h]

theorem receive_nonblock_null {es ml : Nat} {q : ptq_queue} {n : Node} {ns : List Node}
    (hinv : Inv es ml q (n :: ns)) (mtx : Nat) :
    ptq_receive_nonblock q none mtx = Res.fault := by
  have hread : q.read_sem = 1 := by simpa using hinv.read_eq
  have hs1 : Shape (({ q with read_sem := 1 - 1 } : ptq_queue).logged Event.lock_queue)
      (n :: ns) :=
    hinv.shape.congr_shape (by simp) (by simp) (by simp) (by simp) (by simp)
  obtain ⟨ht0, hload, q2, hq2, hbuf, _⟩ :=
    receive_unlink_spec hs1
      (by simp only [ptq_queue.logged_length, hinv.shape.length_eq]
          have := hinv.length_le; have := hinv.max_le; omega)
  simp only [ptq_receive_nonblock, sem_trywait, hread, Nat.one_ne_zero, if_false,
    ptq_receive_nonblock_locked, ht0, hload, hq2, hbuf]

/-- A join on the empty queue returns true and changes the log only. -/
theorem join_empty {es ml : Nat} {q : ptq_queue} (hinv : Inv es ml q []) (mtx : Nat) :
    ptq_join q mtx = Res.ret (true,
      { q with log := (lock_other (q.logged Event.lock_queue) mtx).log ++
        [Event.unlock_queue] }) := by
  have h : q.empty_sem = 1 := by simpa using hinv.empty_eq
  have hl : q.length = 0 := hinv.shape.length_eq
  obtain ⟨rs, ws, es_, hd, tl, len, mx, esz, links, bufs, log⟩ := q
  simp only at h hl
  subst h hl
  by_cases hm : mtx = 0 <;>
    simp [ptq_join, sem_wait, ptq_join_locked, lock_other, ptq_queue.logged, sem_post, hm]

theorem join_nonempty {es ml : Nat} {q : ptq_queue} {n : Node} {ns : List Node}
    (hinv : Inv es ml q (n :: ns)) (mtx : Nat) : ptq_join q mtx = Res.blocked := by
  have h : q.empty_sem = 0 := by simpa using hinv.empty_eq
  simp [ptq_join, sem_wait, h]

theorem get_length_eq (q : ptq_queue) (mtx : Nat) :
    ptq_get_length q mtx = Res.ret (q.length,
      { q with log := (lock_other (q.logged Event.lock_queue) mtx).log ++
        [Event.unlock_queue] }) := by
  obtain ⟨rs, ws, es_, hd, tl, len, mx, esz, links, bufs, log⟩ := q
  by_cases hm : mtx = 0 <;> simp [ptq_get_length, lock_other, ptq_queue.logged, hm]

theorem Inv.with_log {es ml : Nat} {q : ptq_queue} {ns : List Node} (h : Inv es ml q ns)
    (l : List Event) : Inv es ml { q with log := l } ns :=
  h.congr_inv rfl rfl rfl rfl rfl rfl rfl rfl rfl rfl

/-- Every complete call keeps the invariant; the nodes change as the call says. -/
theorem Op.call_inv {es ml : Nat} {q q2 : ptq_queue} {ns : List Node} (op : Op) (out : Out)
    (hinv : Inv es ml q ns) (h : op.call q = Res.ret (out, q2)) :
    ∃ ns2, Inv es ml q2 ns2 := by
  cases op with
  | send_nonblock object m alloc =>
    simp only [Op.call] at h
    rcases send_nonblock_cases hinv object m alloc with ⟨_, e⟩ | ⟨_, _, e⟩ | ⟨_, _, q3, e, hi, hn⟩
    · rw [e] at h; simp only [Res.map] at h; cases h
      exact ⟨ns, hinv⟩
    · rw [e] at h; simp only [Res.map] at h; cases h
      exact ⟨ns, (hinv.take_write 0 rfl).with_log _⟩
    · rw [e] at h; simp only [Res.map] at h; cases h
      exact ⟨_, hi⟩
  | send_block object m alloc =>
    simp only [Op.call, send_block_eq] at h
    split at h
    · cases h
    rcases send_nonblock_cases hinv object m alloc with ⟨_, e⟩ | ⟨_, _, e⟩ | ⟨_, _, q3, e, hi, hn⟩
    · rw [e] at h; simp only [Res.map] at h; cases h
      exact ⟨ns, hinv⟩
    · rw [e] at h; simp only [Res.map] at h; cases h
      exact ⟨ns, (hinv.take_write 0 rfl).with_log _⟩
    · rw [e] at h; simp only [Res.map] at h; cases h
      exact ⟨_, hi⟩
  | receive_nonblock object m =>
    simp only [Op.call] at h
    cases ns with
    | nil =>
      rw [receive_nonblock_empty hinv] at h; simp only [Res.map] at h; cases h
      exact ⟨[], hinv⟩
    | cons n t =>
      cases object with
      | none => rw [receive_nonblock_null hinv] at h; cases h
      | some dst =>
        obtain ⟨q3, e, hi, _⟩ := receive_nonblock_ok hinv dst m
        rw [e] at h; simp only [Res.map] at h; cases h
        exact ⟨t, hi⟩
  | receive_block object m =>
    simp only [Op.call] at h
    cases ns with
    | nil => rw [receive_block_empty hinv] at h; cases h
    | cons n t =>
      obtain ⟨q3, e, hi, _⟩ := receive_block_ok hinv object m
      rw [e] at h; simp only [Res.map] at h; cases h
      exact ⟨t, hi⟩
  | join m =>
    simp only [Op.call] at h
    cases ns with
    | nil =>
      rw [join_empty hinv] at h; simp only [Res.map] at h; cases h
      exact ⟨[], hinv.with_log _⟩
    | cons n t => rw [join_nonempty hinv] at h; cases h
  | get_length m =>
    simp only [Op.call, get_length_eq] at h
    simp only [Res.map] at h; cases h
    exact ⟨ns, hinv.with_log _⟩

/-- The invariant holds after every run of complete calls. -/
theorem run_inv {es ml : Nat} (ops : List Op) {q q2 : ptq_queue} {ns : List Node}
    (outs : List Out) (hinv : Inv es ml q ns) (h : run q ops = Res.ret (outs, q2)) :
    ∃ ns2, Inv es ml q2 ns2 := by
  induction ops generalizing q ns outs with
  | nil =>
    simp only [run] at h
    cases h
    exact ⟨ns, hinv⟩
  | cons op ops ih =>
    simp only [run] at h
    cases hc : op.call q with
    | ret r =>
      obtain ⟨o, q1⟩ := r
      rw [hc] at h
      simp only at h
      obtain ⟨ns1, hi1⟩ := Op.call_inv op o hinv hc
      cases hr : run q1 ops with
      | ret r2 =>
        obtain ⟨os, q3⟩ := r2
        rw [hr] at h
        simp only [Res.map] at h
        cases h
        exact ih os hi1 hr
      | blocked => rw [hr] at h; cases h
      | fault => rw [hr] at h; cases h
    | blocked => rw [hc] at h; cases h
    | fault => rw [hc] at h; cases h

theorem run_cons_ret {q q2 : ptq_queue} {op : Op} {ops : List Op} {outs : List Out}
    (h : run q (op :: ops) = Res.ret (outs, q2)) :
    ∃ o q1 os, op.call q = Res.ret (o, q1) ∧ run q1 ops = Res.ret (os, q2) ∧ outs = o :: os := by
  simp only [run] at h
  cases hc : op.call q with
  | ret r =>
    obtain ⟨o, q1⟩ := r
    rw [hc] at h
    simp only at h
    cases hr : run q1 ops with
    | ret r2 =>
      obtain ⟨os, q3⟩ := r2
      rw [hr] at h
      simp only [Res.map] at h
      cases h
      exact ⟨o, q1, os, rfl, hr, rfl⟩
    | blocked => rw [hr] at h; cases h
    | fault => rw [hr] at h; cases h
  | blocked => rw [hc] at h; cases h
  | fault => rw [hc] at h; cases h

theorem memcpy_take (dst src : List Nat) (n : Nat) :
    memcpy dst (src.take n) n = memcpy dst src n := by
  simp [memcpy, List.take_take]

/-- A send that returns true appends a node with the bytes of its object. -/
theorem SendCall.send_step_true {es ml : Nat} {q q2 : ptq_queue} {ns : List Node}
    (hinv : Inv es ml q ns) (c : SendCall) (h : c.op.call q = Res.ret (Out.sent true, q2)) :
    ∃ n, n.bytes = c.object.take es ∧ Inv es ml q2 (ns ++ [n]) ∧ NoLeak q2 := by
  have key : ∀ r, ptq_send_nonblock q c.object c.mutex_to_lock c.alloc = r →
      r.map (fun r => (Out.sent r.1, r.2)) = Res.ret (Out.sent true, q2) →
      ∃ n, n.bytes = c.object.take es ∧ Inv es ml q2 (ns ++ [n]) ∧ NoLeak q2 := by
    intro r hr hm
    rcases send_nonblock_cases hinv c.object c.mutex_to_lock c.alloc with
      ⟨_, e⟩ | ⟨_, _, e⟩ | ⟨_, _, q3, e, hi, hn⟩
    · rw [e] at hr; subst hr; simp [Res.map] at hm
    · rw [e] at hr; subst hr; simp [Res.map] at hm
    · rw [e] at hr; subst hr
      simp only [Res.map, Res.ret.injEq, Prod.mk.injEq, true_and] at hm
      subst hm
      exact ⟨_, rfl, hi, hn⟩
  unfold SendCall.op at h
  split at h
  · simp only [Op.call, send_block_eq] at h
    split at h
    · cases h
    · exact key _ rfl h
  · simp only [Op.call] at h
    exact key _ rfl h

/-- A receive that returns true removes the oldest node and hands out its bytes. -/
theorem RecvCall.recv_step_true {es ml : Nat} {q q2 : ptq_queue} {ns : List Node}
    (hinv : Inv es ml q ns) (r : RecvCall) (b : Option (List Nat))
    (h : r.op.call q = Res.ret (Out.received true b, q2)) :
    ∃ n t, ns = n :: t ∧ b = r.object.map (fun dst => memcpy dst n.bytes es) ∧
      Inv es ml q2 t := by
  unfold RecvCall.op at h
  cases ns with
  | nil =>
    split at h
    · simp only [Op.call, receive_block_empty hinv] at h
      cases h
    · simp only [Op.call, receive_nonblock_empty hinv, Res.map] at h
      simp at h
  | cons n t =>
    refine ⟨n, t, rfl, ?_⟩
    split at h
    · obtain ⟨q3, e, hi, _⟩ := receive_block_ok hinv r.object r.mutex_to_lock
      simp only [Op.call, e, Res.map, Res.ret.injEq, Prod.mk.injEq, Out.received.injEq,
        true_and] at h
      obtain ⟨h1, h2⟩ := h
      subst h1 h2
      exact ⟨rfl, hi⟩
    · cases ho : r.object with
      | none =>
        rw [ho] at h
        simp only [Op.call, receive_nonblock_null hinv] at h
        cases h
      | some dst =>
        rw [ho] at h
        obtain ⟨q3, e, hi, _⟩ := receive_nonblock_ok hinv dst r.mutex_to_lock
        simp only [Op.call, e, Res.map, Res.ret.injEq, Prod.mk.injEq, Out.received.injEq,
          true_and] at h
        obtain ⟨h1, h2⟩ := h
        subst h1 h2
        exact ⟨rfl, hi⟩

/-- After sends that all return true the queue holds their objects, in order, after
the nodes it held. -/
theorem run_sends {es ml : Nat} (sends : List SendCall) {q q1 : ptq_queue} {ns : List Node}
    (hinv : Inv es ml q ns)
    (h : run q (sends.map SendCall.op) = Res.ret (sends.map (fun _ => Out.sent true), q1)) :
    ∃ ns1, Inv es ml q1 (ns ++ ns1) ∧
      ns1.map Node.bytes = sends.map (fun s => s.object.take es) := by
  induction sends generalizing q ns with
  | nil =>
    simp only [List.map_nil, run] at h
    cases h
    exact ⟨[], by simpa using hinv, rfl⟩
  | cons c cs ih =>
    simp only [List.map_cons] at h
    obtain ⟨o, q2, os, hc, hr, ho⟩ := run_cons_ret h
    simp only [List.cons.injEq] at ho
    obtain ⟨rfl, rfl⟩ := ho
    obtain ⟨n, hb, hi, _⟩ := SendCall.send_step_true hinv c hc
    obtain ⟨ns1, hi1, hb1⟩ := ih hi hr
    refine ⟨n :: ns1, by simpa using hi1, ?_⟩
    simp [hb, hb1]

/-- Receives that all return true hand out the oldest nodes, in order. -/
theorem run_recvs {es ml : Nat} (recvs : List RecvCall) {q q2 : ptq_queue} {ns : List Node}
    (bufs : List (Option (List Nat))) (hinv : Inv es ml q ns)
    (h : run q (recvs.map RecvCall.op) = Res.ret (bufs.map (Out.received true), q2)) :
    recvs.length ≤ ns.length ∧
    bufs = List.zipWith (fun (n : Node) (r : RecvCall) =>
      r.object.map (fun dst => memcpy dst n.bytes es)) ns recvs ∧
    Inv es ml q2 (ns.drop recvs.length) := by
  induction recvs generalizing q ns bufs with
  | nil =>
    simp only [List.map_nil, run] at h
    cases bufs with
    | nil =>
      cases h
      exact ⟨by simp, by simp, by simpa using hinv⟩
    | cons b bs => simp at h
  | cons r rs ih =>
    simp only [List.map_cons] at h
    obtain ⟨o, q3, os, hc, hr, ho⟩ := run_cons_ret h
    cases bufs with
    | nil => simp at ho
    | cons b bs =>
      simp only [List.map_cons, List.cons.injEq] at ho
      obtain ⟨rfl, rfl⟩ := ho
      obtain ⟨n, t, rfl, hb, hi⟩ := RecvCall.recv_step_true hinv r b hc
      obtain ⟨hl, hz, hi2⟩ := ih bs hi hr
      refine ⟨by simpa using hl, ?_, by simpa using hi2⟩
      simp [hb, hz]

/-- The queue that `ptq_create_max` makes. -/
theorem create_eq {es ml : Nat} {env : InitEnv} {q0 : ptq_queue}
    (h : ptq_create_max es ml env = some q0) :
    q0 = ⟨0, 1, 1, 0, 0, 0, if ml = 0 then 1 else ml, es, [], [], []⟩ := by
  unfold ptq_create_max at h
  simp only at h
  split at h
  · cases h
  · split at h
    · cases h
    · split at h
      · cases h
      · split at h
        · cases h
        · split at h
          · cases h
          · cases h; rfl

/-! ## The claims -/

/-- C1 (FIFO order): when `n` sends (blocking or not) on a freshly created queue all
return true and are followed by `n` receives (blocking or not) that all return true,
the `i`-th receive leaves in the caller's buffer the first `entry_size` bytes of the
`i`-th sent object, followed by the rest of the buffer untouched (a null buffer stays
null), and the queue is empty afterwards. -/
theorem fifo_order (es ml : Nat) (env : InitEnv) (q0 q1 q2 : ptq_queue)
    (sends : List SendCall) (recvs : List RecvCall) (bufs : List (Option (List Nat)))
    (hml : ml ≤ SIZE_MAX)
    (hcreate : ptq_create_max es ml env = some q0)
    (hsend : run q0 (sends.map SendCall.op) =
      Res.ret (sends.map (fun _ => Out.sent true), q1))
    (hlen : recvs.length = sends.length)
    (hrecv : run q1 (recvs.map RecvCall.op) = Res.ret (bufs.map (Out.received true), q2)) :
    bufs = List.zipWith (fun (s : SendCall) (r : RecvCall) =>
        r.object.map (fun dst => s.object.take es ++ dst.drop es)) sends recvs ∧
      q2.length = 0 ∧ q2.head = 0 ∧ q2.tail = 0 ∧ q2.read_sem = 0 ∧ q2.empty_sem = 1 := by
  obtain ⟨hinv0, _, _⟩ := create_inv hml hcreate
  obtain ⟨ns1, hinv1, hb⟩ := run_sends sends hinv0 hsend
  simp only [List.nil_append] at hinv1
  obtain ⟨_, hz, hinv2⟩ := run_recvs recvs bufs hinv1 hrecv
  have hl : ns1.length = sends.length := by
    have := congrArg List.length hb
    simpa using this
  have hdrop : ns1.drop recvs.length = [] := by
    rw [hlen, ← hl]; simp
  rw [hdrop] at hinv2
  refine ⟨?_, hinv2.shape.length_eq, hinv2.shape.head_eq, hinv2.shape.tail_eq,
    by simpa using hinv2.read_eq, by simpa using hinv2.empty_eq⟩
  rw [hz]
  have e1 : List.zipWith (fun (n : Node) (r : RecvCall) =>
      r.object.map (fun dst => memcpy dst n.bytes es)) ns1 recvs =
      List.zipWith (fun (b : List Nat) (r : RecvCall) =>
        r.object.map (fun dst => memcpy dst b es)) (ns1.map Node.bytes) recvs := by
    rw [List.zipWith_map_left]
  rw [e1, hb, List.zipWith_map_left]
  congr 1
  funext s r
  cases r.object <;> simp [memcpy, List.take_take]

/-- C3 (capacity bound): on a queue created with `ptq_create_max(entry_size, k)`,
`k ≥ 1`, after `k` sends that returned true and no receive, a further
`ptq_send_nonblock` returns false and changes nothing; the length is `k`. -/
theorem capacity_bound (es k : Nat) (env : InitEnv) (q0 q1 : ptq_queue)
    (sends : List SendCall) (hk1 : 1 ≤ k) (hk : k ≤ SIZE_MAX)
    (hcreate : ptq_create_max es k env = some q0) (hlen : sends.length = k)
    (hsend : run q0 (sends.map SendCall.op) =
      Res.ret (sends.map (fun _ => Out.sent true), q1))
    (object : List Nat) (mtx : Nat) (alloc : Alloc) :
    ptq_send_nonblock q1 object mtx alloc = Res.ret (false, q1) ∧ q1.length = k ∧
      (ptq_get_length q1 mtx).map Prod.fst = Res.ret k := by
  obtain ⟨hinv0, _, _⟩ := create_inv hk hcreate
  have hk0 : ¬ k = 0 := by omega
  simp only [hk0, if_false] at hinv0
  obtain ⟨ns1, hinv1, hb⟩ := run_sends sends hinv0 hsend
  simp only [List.nil_append] at hinv1
  have hl : ns1.length = k := by
    have := congrArg List.length hb
    simp only [List.length_map] at this
    omega
  have hq : q1.length = k := by rw [hinv1.shape.length_eq, hl]
  have hw : q1.write_sem = 0 := by
    rcases hinv1.write_le with h | ⟨_, h⟩
    · exact h
    · omega
  refine ⟨by simp [ptq_send_nonblock, sem_trywait, hw], hq, ?_⟩
  rw [get_length_eq]
  simp [Res.map, hq]

/-- C5 (a non-blocking miss has no side effect): in every queue state, when the
`sem_trywait` on `write_sem` fails `ptq_send_nonblock` returns false and the whole
state (entries, length, semaphores, mutex log) is the one before the call; when the
`sem_trywait` on `read_sem` fails `ptq_receive_nonblock` returns false and the state
and the caller's buffer are the ones before the call. -/
theorem nonblock_miss_no_effect (q : ptq_queue) (object : List Nat)
    (buffer : Option (List Nat)) (mtx : Nat) (alloc : Alloc) :
    (sem_trywait q.write_sem = none →
      ptq_send_nonblock q object mtx alloc = Res.ret (false, q)) ∧
    (sem_trywait q.read_sem = none →
      ptq_receive_nonblock q buffer mtx = Res.ret (false, buffer, q)) := by
  constructor
  · intro h
    simp only [ptq_send_nonblock, h]
  · intro h
    simp only [ptq_receive_nonblock, h]

/-- C6 (allocation failure in send): in every queue state with a `writable` token,
when the allocation of the link or of the buffer fails, `ptq_send_nonblock` and
`ptq_send_block` return false; the entries, the length, `read_sem` and `empty_sem` are
unchanged, the only mutex calls are the lock and unlock of the queue mutex, and
`write_sem` is one lower than before the call. -/
theorem send_alloc_failure (q : ptq_queue) (object : List Nat) (mtx : Nat) (alloc : Alloc)
    (hw : q.write_sem ≠ 0) (ha : alloc ≠ Alloc.ok) :
    ptq_send_nonblock q object mtx alloc = Res.ret (false,
      { q with write_sem := q.write_sem - 1,
               log := q.log ++ [Event.lock_queue, Event.unlock_queue] }) ∧
    ptq_send_block q object mtx alloc = Res.ret (false,
      { q with write_sem := q.write_sem - 1,
               log := q.log ++ [Event.lock_queue, Event.unlock_queue] }) ∧
    (q.write_sem - 1) + 1 = q.write_sem := by
  have h1 : ptq_send_nonblock q object mtx alloc = Res.ret (false,
      { q with write_sem := q.write_sem - 1,
               log := q.log ++ [Event.lock_queue, Event.unlock_queue] }) := by
    simp only [ptq_send_nonblock, sem_trywait, hw, if_false]
    exact send_nonblock_locked_fail _ object mtx alloc ha
  refine ⟨h1, ?_, by omega⟩
  rw [send_block_eq, if_neg hw, h1]

/-- C7 (emptiness bound): on a freshly created queue, for every entry size and
maximum length, `ptq_receive_nonblock` returns false and leaves the caller's buffer
and the queue as they were, and `ptq_get_length` returns 0. -/
theorem fresh_queue_empty (es ml : Nat) (env : InitEnv) (q0 : ptq_queue)
    (hcreate : ptq_create_max es ml env = some q0) (buffer : Option (List Nat))
    (mtx : Nat) :
    ptq_receive_nonblock q0 buffer mtx = Res.ret (false, buffer, q0) ∧
      (ptq_get_length q0 mtx).map Prod.fst = Res.ret 0 := by
  have h := create_eq hcreate
  subst h
  refine ⟨by simp [ptq_receive_nonblock, sem_trywait], ?_⟩
  rw [get_length_eq]
  simp [Res.map]

/-- C8 (capacity coercion): `ptq_create_max(entry_size, 0)` gives the result of
`ptq_create_max(entry_size, 1)`; when the initialisation succeeds this is the queue
with `max_length = 1`, length 0, `read_sem = 0`, `write_sem = 1`, `empty_sem = 1`; so
every sequence of calls gives the same results on both. -/
theorem capacity_coercion (es : Nat) (env : InitEnv) (ops : List Op) :
    ptq_create_max es 0 env = ptq_create_max es 1 env ∧
    ptq_create_max es 0 InitEnv.success = some ⟨0, 1, 1, 0, 0, 0, 1, es, [], [], []⟩ ∧
    (ptq_create_max es 0 env).map (fun q => run q ops) =
      (ptq_create_max es 1 env).map (fun q => run q ops) := by
  have h : ptq_create_max es 0 env = ptq_create_max es 1 env := by
    simp [ptq_create_max]
  exact ⟨h, by simp [ptq_create_max, InitEnv.success], by rw [h]⟩

/-- The queue of `ptq.c` and the abstract bounded FIFO list give the same outputs, from
any queue that satisfies the invariant and has lost no `writable` token. -/
theorem run_refines {es ml : Nat} (calls : List Call) {q : ptq_queue} {ns : List Node}
    (hinv : Inv es ml q ns) (hnl : NoLeak q) (hb : ∀ n ∈ ns, n.bytes.length = es)
    (hsized : ∀ c ∈ calls, c.sized es) :
    (run q (calls.map Call.op)).map Prod.fst =
      Res.ret (bounded_fifo_run ml (ns.map Node.bytes) calls) := by
  induction calls generalizing q ns with
  | nil => simp [run, Res.map, bounded_fifo_run]
  | cons c cs ih =>
    have hcs : ∀ c ∈ cs, c.sized es := fun c hc => hsized c (List.mem_cons_of_mem _ hc)
    have hc := hsized c (List.mem_cons_self _ _)
    have hstep : ∀ (o : Out) (q2 : ptq_queue) (ns2 : List Node),
        c.op.call q = Res.ret (o, q2) → Inv es ml q2 ns2 → NoLeak q2 →
        (∀ n ∈ ns2, n.bytes.length = es) →
        bounded_fifo_call ml (ns.map Node.bytes) c = (o, ns2.map Node.bytes) →
        (run q ((c :: cs).map Call.op)).map Prod.fst =
          Res.ret (bounded_fifo_run ml (ns.map Node.bytes) (c :: cs)) := by
      intro o q2 ns2 hcall hi2 hn2 hb2 habs
      have := ih hi2 hn2 hb2 hcs
      simp only [List.map_cons, run, hcall, bounded_fifo_run, habs]
      cases hr : run q2 (cs.map Call.op) with
      | ret r =>
        rw [hr] at this
        simp only [Res.map, Res.ret.injEq] at this ⊢
        rw [this]
      | blocked => rw [hr] at this; simp [Res.map] at this
      | fault => rw [hr] at this; simp [Res.map] at this
    cases c with
    | send object m =>
      simp only [Call.sized] at hc
      rcases send_nonblock_cases hinv object m Alloc.ok with
        ⟨h0, e⟩ | ⟨_, hne, _⟩ | ⟨_, _, q3, e, hi, hn⟩
      · have hfull : ¬ ns.length < ml := by
          intro hlt
          have := hnl (by rw [hinv.shape.length_eq, hinv.max_length_eq]; exact hlt)
          omega
        refine hstep (Out.sent false) q ns ?_ hinv hnl hb ?_
        · simp [Call.op, Op.call, e, Res.map]
        · simp [bounded_fifo_call, hfull]
      · exact absurd rfl hne
      · have hroom : ns.length < ml := by
          have := hi.length_le
          simp only [List.length_append, List.length_cons, List.length_nil] at this
          omega
        refine hstep (Out.sent true) q3 _ ?_ hi hn ?_ ?_
        · simp [Call.op, Op.call, e, Res.map]
        · intro n hn2
          rcases List.mem_append.1 hn2 with h | h
          · exact hb n h
          · simp only [List.mem_singleton] at h
            subst h
            simp [hc]
        · have htake : List.take es object = object := by
            rw [← hc]; exact List.take_length _
          simp [bounded_fifo_call, hroom, htake]
    | receive object m =>
      simp only [Call.sized] at hc
      cases ns with
      | nil =>
        refine hstep (Out.received false (some object)) q [] ?_ hinv hnl hb ?_
        · simp [Call.op, Op.call, receive_nonblock_empty hinv, Res.map]
        · simp [bounded_fifo_call]
      | cons n t =>
        obtain ⟨q3, e, hi, hn⟩ := receive_nonblock_ok hinv object m
        have hbn : n.bytes.length = es := hb n (List.mem_cons_self _ _)
        have hcopy : memcpy object n.bytes es = n.bytes := by
          have h1 : List.take es n.bytes = n.bytes := by rw [← hbn]; exact List.take_length _
          have h2 : List.drop es object = [] := by rw [← hc]; exact List.drop_length _
          simp [memcpy, h1, h2]
        refine hstep (Out.received true (some n.bytes)) q3 t ?_ hi (hn hnl)
          (fun x hx => hb x (List.mem_cons_of_mem _ hx)) ?_
        · simp [Call.op, Op.call, e, Res.map, hcopy]
        · simp [bounded_fifo_call]
    | get_length m =>
      refine hstep (Out.length ns.length)
        { q with log := (lock_other (q.logged Event.lock_queue) m).log ++
          [Event.unlock_queue] } ns ?_ (hinv.with_log _) ?_ hb ?_
      · simp [Call.op, Op.call, get_length_eq, Res.map, hinv.shape.length_eq]
      · exact hnl
      · simp [bounded_fifo_call]

/-- C2 (reference-model equivalence): for every `max_length ≥ 1` and every sequence of
single-threaded `ptq_send_nonblock` / `ptq_receive_nonblock` / `ptq_get_length` calls
on a freshly created queue, with buffers of `entry_size` bytes and allocation never
failing, every call returns, and its return value and output are those of the abstract
bounded FIFO list. -/
theorem reference_model_equivalence (es ml : Nat) (env : InitEnv) (q0 : ptq_queue)
    (calls : List Call) (h1 : 1 ≤ ml) (hml : ml ≤ SIZE_MAX)
    (hcreate : ptq_create_max es ml env = some q0)
    (hsized : ∀ c ∈ calls, c.sized es) :
    (run q0 (calls.map Call.op)).map Prod.fst = Res.ret (bounded_fifo_run ml [] calls) := by
  obtain ⟨hinv0, hnl, _⟩ := create_inv hml hcreate
  have h0 : ¬ ml = 0 := by omega
  simp only [h0, if_false] at hinv0
  exact run_refines calls hinv0 hnl (by simp) hsized

/-- C4: `ptq_create` hands nothing to its caller: its body has no `return`, so the
result of the inner `ptq_create_max(entry_size, SIZE_MAX)`, which is a queue when the
initialisation succeeds, is not returned. -/
theorem ptq_create_returns_nothing (es : Nat) (env : InitEnv) :
    ptq_create es env = Returned.nothing ∧
    ptq_create es env ≠ Returned.value (ptq_create_max es SIZE_MAX env) ∧
    ptq_create_max es SIZE_MAX InitEnv.success =
      some ⟨0, 1, 1, 0, 0, 0, SIZE_MAX, es, [], [], []⟩ := by
  refine ⟨rfl, ?_, by simp [ptq_create_max, InitEnv.success, SIZE_MAX]⟩
  simp [ptq_create]

/-- C10: in the schedule `join_race` the call of `ptq_join` by thread 4 (the last three
steps) returns true although the length of the queue is 1 from before the call to its
return.  Each step is listed with the length, `empty_sem` and what returned: the join
of thread 1 (step 9) posts `empty_sem` a second time, the send of step 12 takes one of
the two tokens, and thread 4 finds the other. -/
theorem join_returns_on_nonempty_queue :
    (exec ⟨⟨0, 1, 1, 0, 0, 0, 2, 1, [], [], []⟩, []⟩ join_race).map
      (fun tr => tr.map (fun s => (s.1.queue.length, s.1.queue.empty_sem, s.2))) =
    some [(0, 1, none), (0, 0, none),
      (0, 0, none), (0, 0, none), (1, 0, some (Out.sent true)),
      (1, 0, none), (1, 0, none), (0, 1, some (Out.received true (some [7]))),
      (0, 2, some (Out.joined true)),
      (0, 2, none), (0, 2, none), (1, 1, some (Out.sent true)),
      (1, 1, none), (1, 0, none), (1, 0, some (Out.joined true))] := by
  decide

/-! ## The claims at concrete inputs -/

theorem fifo_order_witness :
    ptq_create_max 2 3 InitEnv.success = some queue_2_3 ∧
    run queue_2_3 (two_sends.map SendCall.op) =
      Res.ret ([Out.sent true, Out.sent true], queue_2_3_sent) ∧
    run queue_2_3_sent (two_recvs.map RecvCall.op) =
      Res.ret ([Out.received true (some [1, 2]), Out.received true (some [3, 4])],
        queue_2_3_received) ∧
    ([some [1, 2], some [3, 4]] = List.zipWith (fun (s : SendCall) (r : RecvCall) =>
        r.object.map (fun dst => s.object.take 2 ++ dst.drop 2)) two_sends two_recvs ∧
      queue_2_3_received.length = 0 ∧ queue_2_3_received.head = 0 ∧
      queue_2_3_received.tail = 0 ∧ queue_2_3_received.read_sem = 0 ∧
      queue_2_3_received.empty_sem = 1) :=
  ⟨by decide, by decide, by decide,
    fifo_order 2 3 InitEnv.success queue_2_3 queue_2_3_sent queue_2_3_received two_sends
      two_recvs [some [1, 2], some [3, 4]] (by decide) (by decide) (by decide) (by decide)
      (by decide)⟩

theorem reference_model_equivalence_witness :
    (run ⟨0, 1, 1, 0, 0, 0, 2, 4, [], [], []⟩ (scenario.map Call.op)).map Prod.fst =
      Res.ret [Out.sent true, Out.sent true, Out.sent false, Out.length 2,
        Out.received true (some [1, 0, 0, 0]), Out.sent true, Out.length 2,
        Out.received true (some [2, 0, 0, 0]), Out.received true (some [3, 0, 0, 0])] :=
  reference_model_equivalence 4 2 InitEnv.success ⟨0, 1, 1, 0, 0, 0, 2, 4, [], [], []⟩
    scenario (by decide) (by decide) (by decide)
    (by intro c hc; simp only [scenario, List.mem_cons, List.mem_singleton] at hc
        rcases hc with h | h | h | h | h | h | h | h | h | h <;> first | (subst h; simp [Call.sized]) | simp at h)

theorem capacity_bound_witness :
    ptq_create_max 2 2 InitEnv.success = some queue_2_2 ∧
    run queue_2_2 (two_sends.map SendCall.op) =
      Res.ret ([Out.sent true, Out.sent true], queue_2_2_sent) ∧
    (ptq_send_nonblock queue_2_2_sent [5, 6] 0 Alloc.ok = Res.ret (false, queue_2_2_sent) ∧
      queue_2_2_sent.length = 2 ∧
      (ptq_get_length queue_2_2_sent 0).map Prod.fst = Res.ret 2) :=
  ⟨by decide, by decide,
    capacity_bound 2 2 InitEnv.success queue_2_2 queue_2_2_sent two_sends (by decide)
      (by decide) (by decide) (by decide) (by decide) [5, 6] 0 Alloc.ok⟩

theorem nonblock_miss_no_effect_witness :
    sem_trywait queue_2_2_sent.write_sem = none ∧
    ptq_send_nonblock queue_2_2_sent [5, 6] 7 Alloc.ok = Res.ret (false, queue_2_2_sent) ∧
    sem_trywait queue_2_2.read_sem = none ∧
    ptq_receive_nonblock queue_2_2 (some [9, 9]) 7 = Res.ret (false, some [9, 9], queue_2_2) :=
  ⟨by decide,
    (nonblock_miss_no_effect queue_2_2_sent [5, 6] none 7 Alloc.ok).1 (by decide),
    by decide,
    (nonblock_miss_no_effect queue_2_2 [] (some [9, 9]) 7 Alloc.ok).2 (by decide)⟩

theorem send_alloc_failure_witness :
    queue_2_3_sent.write_sem ≠ 0 ∧
    (ptq_send_nonblock queue_2_3_sent [5, 6] 7 Alloc.no_memory = Res.ret (false,
      { queue_2_3_sent with
        write_sem := queue_2_3_sent.write_sem - 1,
        log := queue_2_3_sent.log ++ [Event.lock_queue, Event.unlock_queue] }) ∧
    ptq_send_block queue_2_3_sent [5, 6] 7 Alloc.no_memory = Res.ret (false,
      { queue_2_3_sent with
        write_sem := queue_2_3_sent.write_sem - 1,
        log := queue_2_3_sent.log ++ [Event.lock_queue, Event.unlock_queue] }) ∧
    (queue_2_3_sent.write_sem - 1) + 1 = queue_2_3_sent.write_sem) :=
  ⟨by decide, send_alloc_failure queue_2_3_sent [5, 6] 7 Alloc.no_memory (by decide)
    (by decide)⟩

theorem fresh_queue_empty_witness :
    ptq_create_max 2 3 InitEnv.success = some queue_2_3 ∧
    (ptq_receive_nonblock queue_2_3 (some [9, 9]) 7 = Res.ret (false, some [9, 9], queue_2_3) ∧
      (ptq_get_length queue_2_3 7).map Prod.fst = Res.ret 0) :=
  ⟨by decide, fresh_queue_empty 2 3 InitEnv.success queue_2_3 (by decide) (some [9, 9]) 7⟩

theorem logged_log (q : ptq_queue) (e : Event) : (q.logged e).log = q.log ++ [e] := rfl

theorem lock_other_log (q : ptq_queue) (m : Nat) :
    (lock_other q m).log = q.log ++ (if m ≠ 0 then [Event.lock_other m] else []) := by
  unfold lock_other
  split <;> simp [logged_log]

theorem send_enlink_log {q q2 : ptq_queue} {next : Nat} (h : send_enlink q next = some q2) :
    q2.log = q.log := by
  unfold send_enlink at h
  by_cases hh : q.head = 0
  · simp only [hh, ne_eq, not_true_eq_false, if_false] at h
    cases h; rfl
  · cases hl : Heap.load q.links q.head with
    | none => simp [hh, hl] at h
    | some l =>
      simp only [ne_eq, hh, not_false_eq_true, if_true, hl] at h
      cases h; rfl

theorem receive_unlink_log {q q2 : ptq_queue} {t : ptq_link} (h : receive_unlink q t = some q2) :
    q2.log = q.log ∧ q2.entry_size = q.entry_size ∧ q2.bufs = q.bufs := by
  unfold receive_unlink at h
  by_cases hh : t.prev = 0
  · simp only [hh, ne_eq, not_true_eq_false, if_false] at h
    cases h; exact ⟨rfl, rfl, rfl⟩
  · cases hl : Heap.load q.links t.prev with
    | none => simp [hh, hl] at h
    | some l =>
      simp only [ne_eq, hh, not_false_eq_true, if_true, hl] at h
      cases h; exact ⟨rfl, rfl, rfl⟩

/-- The mutex calls of the critical section of a send: the lock of the queue mutex,
the lock of `mutex_to_lock` when the call returns true and the pointer is not null,
the unlock of the queue mutex. -/
theorem send_nonblock_locked_log {q q2 : ptq_queue} {object : List Nat} {m : Nat}
    {alloc : Alloc} {b : Bool} (h : ptq_send_nonblock_locked q object m alloc = Res.ret (b, q2)) :
    q2.log = q.log ++ Event.lock_queue ::
      ((if b = true ∧ m ≠ 0 then [Event.lock_other m] else []) ++ [Event.unlock_queue]) := by
  cases alloc with
  | no_link =>
    simp only [ptq_send_nonblock_locked, Res.ret.injEq, Prod.mk.injEq] at h
    obtain ⟨rfl, rfl⟩ := h
    simp [logged_log]
  | no_memory =>
    simp only [ptq_send_nonblock_locked, Res.ret.injEq, Prod.mk.injEq] at h
    obtain ⟨rfl, rfl⟩ := h
    simp [logged_log]
  | ok =>
    simp only [ptq_send_nonblock_locked] at h
    cases he : send_enlink (send_new_link (q.logged Event.lock_queue) object).2
        (send_new_link (q.logged Event.lock_queue) object).1 with
    | none => rw [he] at h; cases h
    | some q3 =>
      rw [he] at h
      simp only [Res.ret.injEq, Prod.mk.injEq] at h
      obtain ⟨rfl, rfl⟩ := h
      have h3 := send_enlink_log he
      have h4 : (send_new_link (q.logged Event.lock_queue) object).2.log =
          q.log ++ [Event.lock_queue] := rfl
      rw [logged_log, lock_other_log, send_update_sems_log, h3, h4]
      by_cases hm : m = 0 <;> simp [hm]

/-- The mutex calls of the critical section of a non-blocking receive. -/
theorem receive_nonblock_locked_log {q q2 : ptq_queue} {object o2 : Option (List Nat)}
    {m : Nat} {b : Bool}
    (h : ptq_receive_nonblock_locked q object m = Res.ret (b, o2, q2)) :
    q2.log = q.log ++ Event.lock_queue ::
      ((if b = true ∧ m ≠ 0 then [Event.lock_other m] else []) ++ [Event.unlock_queue]) := by
  simp only [ptq_receive_nonblock_locked, ptq_queue.logged_tail, ptq_queue.logged_links] at h
  by_cases ht : q.tail = 0
  · simp only [ht, if_true, Res.ret.injEq, Prod.mk.injEq] at h
    obtain ⟨rfl, _, rfl⟩ := h
    simp [logged_log]
  · simp only [ht, if_false] at h
    cases hl : Heap.load q.links q.tail with
    | none => rw [hl] at h; cases h
    | some t =>
      rw [hl] at h
      simp only at h
      cases hu : receive_unlink (q.logged Event.lock_queue) t with
      | none => rw [hu] at h; cases h
      | some q3 =>
        rw [hu] at h
        simp only at h
        obtain ⟨h3, _, _⟩ := receive_unlink_log hu
        cases object with
        | none => cases h
        | some dst =>
          cases hb : Heap.load q3.bufs t.memory with
          | none => rw [hb] at h; cases h
          | some src =>
            rw [hb] at h
            simp only [Res.ret.injEq, Prod.mk.injEq] at h
            obtain ⟨rfl, _, rfl⟩ := h
            rw [logged_log, lock_other_log, receive_update_sems_log, receive_release_log, h3,
              logged_log]
            by_cases hm : m = 0 <;> simp [hm]

/-- The mutex calls of the critical section of a blocking receive. -/
theorem receive_block_locked_log {q q2 : ptq_queue} {object o2 : Option (List Nat)}
    {m : Nat} {b : Bool}
    (h : ptq_receive_block_locked q object m = Res.ret (b, o2, q2)) :
    b = true ∧ q2.log = q.log ++ Event.lock_queue ::
      ((if m ≠ 0 then [Event.lock_other m] else []) ++ [Event.unlock_queue]) := by
  simp only [ptq_receive_block_locked, ptq_queue.logged_tail, ptq_queue.logged_links] at h
  cases hl : (if q.tail = 0 then none else Heap.load q.links q.tail) with
  | none => rw [hl] at h; cases h
  | some t =>
    rw [hl] at h
    simp only at h
    cases hu : receive_unlink (q.logged Event.lock_queue) t with
    | none => rw [hu] at h; cases h
    | some q3 =>
      rw [hu] at h
      simp only at h
      obtain ⟨h3, _, _⟩ := receive_unlink_log hu
      split at h
      · cases h
      · simp only [Res.ret.injEq, Prod.mk.injEq] at h
        obtain ⟨rfl, _, rfl⟩ := h
        refine ⟨rfl, ?_⟩
        rw [logged_log, lock_other_log, receive_update_sems_log, receive_release_log, h3,
          logged_log]
        by_cases hm : m = 0 <;> simp [hm]

/-- The mutex calls of the critical section of a join. -/
theorem join_locked_log (q : ptq_queue) (m : Nat) :
    ∃ q2, ptq_join_locked q m = Res.ret (true, q2) ∧ q2.log = q.log ++ Event.lock_queue ::
      ((if m ≠ 0 then [Event.lock_other m] else []) ++ [Event.unlock_queue]) := by
  refine ⟨_, rfl, ?_⟩
  rw [logged_log]
  split
  · simp only
    rw [lock_other_log, logged_log]
    by_cases hm : m = 0 <;> simp [hm]
  · rw [lock_other_log, logged_log]
    by_cases hm : m = 0 <;> simp [hm]

theorem res_map_ret {α β : Type} {f : α → β} {r : Res α} {b : β}
    (h : r.map f = Res.ret b) : ∃ a, r = Res.ret a ∧ f a = b := by
  cases r with
  | ret a => simp only [Res.map, Res.ret.injEq] at h; exact ⟨a, rfl, h⟩
  | blocked => cases h
  | fault => cases h

/-- The mutex calls of a complete call: none for a non-blocking miss; otherwise the
lock of the queue mutex, the lock of `mutex_to_lock` when the call was performed and
the pointer is not null, and the unlock of the queue mutex. -/
theorem Op.call_log {q q2 : ptq_queue} (op : Op) (out : Out)
    (h : op.call q = Res.ret (out, q2)) :
    (out.ok = false ∧ q2.log = q.log) ∨
    q2.log = q.log ++ Event.lock_queue ::
      ((if out.ok = true ∧ op.mutex_to_lock ≠ 0 then [Event.lock_other op.mutex_to_lock]
        else []) ++ [Event.unlock_queue]) := by
  cases op with
  | send_nonblock object m alloc =>
    simp only [Op.call] at h
    obtain ⟨⟨b, q3⟩, hr, he⟩ := res_map_ret h
    simp only [Prod.mk.injEq] at he
    obtain ⟨rfl, rfl⟩ := he
    simp only [ptq_send_nonblock] at hr
    split at hr
    · simp only [Res.ret.injEq, Prod.mk.injEq] at hr
      obtain ⟨rfl, rfl⟩ := hr
      exact Or.inl ⟨rfl, rfl⟩
    · have hl := send_nonblock_locked_log hr
      exact Or.inr hl
  | send_block object m alloc =>
    simp only [Op.call] at h
    obtain ⟨⟨b, q3⟩, hr, he⟩ := res_map_ret h
    simp only [Prod.mk.injEq] at he
    obtain ⟨rfl, rfl⟩ := he
    simp only [ptq_send_block] at hr
    split at hr
    · cases hr
    · rw [send_block_locked_eq] at hr
      have hl := send_nonblock_locked_log hr
      exact Or.inr hl
  | receive_nonblock object m =>
    simp only [Op.call] at h
    obtain ⟨⟨b, o2, q3⟩, hr, he⟩ := res_map_ret h
    simp only [Prod.mk.injEq] at he
    obtain ⟨rfl, rfl⟩ := he
    simp only [ptq_receive_nonblock] at hr
    split at hr
    · simp only [Res.ret.injEq, Prod.mk.injEq] at hr
      obtain ⟨rfl, _, rfl⟩ := hr
      exact Or.inl ⟨rfl, rfl⟩
    · have hl := receive_nonblock_locked_log hr
      exact Or.inr hl
  | receive_block object m =>
    simp only [Op.call] at h
    obtain ⟨⟨b, o2, q3⟩, hr, he⟩ := res_map_ret h
    simp only [Prod.mk.injEq] at he
    obtain ⟨rfl, rfl⟩ := he
    simp only [ptq_receive_block] at hr
    split at hr
    · cases hr
    · obtain ⟨rfl, hl⟩ := receive_block_locked_log hr
      right
      simpa [Out.ok, Op.mutex_to_lock] using hl
  | join m =>
    simp only [Op.call] at h
    obtain ⟨⟨b, q3⟩, hr, he⟩ := res_map_ret h
    simp only [Prod.mk.injEq] at he
    obtain ⟨rfl, rfl⟩ := he
    simp only [ptq_join] at hr
    split at hr
    · cases hr
    · rename_i v _
      obtain ⟨q4, h4, hl⟩ := join_locked_log { q with empty_sem := v } m
      rw [h4] at hr
      simp only [Res.ret.injEq, Prod.mk.injEq] at hr
      obtain ⟨rfl, rfl⟩ := hr
      right
      simpa [Out.ok, Op.mutex_to_lock] using hl
  | get_length m =>
    simp only [Op.call, get_length_eq, Res.map, Res.ret.injEq, Prod.mk.injEq] at h
    obtain ⟨rfl, rfl⟩ := h
    right
    simp only [Out.ok, Op.mutex_to_lock, lock_other_log, logged_log, true_and]
    by_cases hm : m = 0 <;> simp [hm]

/-- C11 (the external lock is taken exactly on success): in every queue state and for
every non-null `mutex_to_lock`, the mutex calls of `ptq_send_nonblock` and of
`ptq_receive_nonblock` are: none when the semaphore is not obtained; otherwise the
lock of the queue mutex, one lock of `mutex_to_lock` exactly when the call returns
true, and the unlock of the queue mutex.  Every complete call of the interface only
adds locks and unlocks of the queue mutex and locks of its `mutex_to_lock` (there is
no unlock of it), and with a null `mutex_to_lock` it adds no lock of another mutex. -/
theorem external_lock_exactly_on_success (q : ptq_queue) (object : List Nat)
    (buffer : Option (List Nat)) (m : Nat) (alloc : Alloc) (hm : m ≠ 0) :
    (∀ b q2, ptq_send_nonblock q object m alloc = Res.ret (b, q2) →
      ∃ added, q2.log = q.log ++ added ∧
        added.count (Event.lock_other m) = (if b = true then 1 else 0) ∧
        ∀ e ∈ added, e = Event.lock_queue ∨ e = Event.unlock_queue ∨ e = Event.lock_other m) ∧
    (∀ b o2 q2, ptq_receive_nonblock q buffer m = Res.ret (b, o2, q2) →
      ∃ added, q2.log = q.log ++ added ∧
        added.count (Event.lock_other m) = (if b = true then 1 else 0) ∧
        ∀ e ∈ added, e = Event.lock_queue ∨ e = Event.unlock_queue ∨ e = Event.lock_other m) ∧
    (∀ (op : Op) out q2, op.call q = Res.ret (out, q2) →
      ∃ added, q2.log = q.log ++ added ∧
        (∀ e ∈ added, e = Event.lock_queue ∨ e = Event.unlock_queue ∨
          e = Event.lock_other op.mutex_to_lock) ∧
        (op.mutex_to_lock = 0 → ∀ k, Event.lock_other k ∉ added)) := by
  have key : ∀ (op : Op) out q2, op.call q = Res.ret (out, q2) →
      ∃ added, q2.log = q.log ++ added ∧
        added.count (Event.lock_other op.mutex_to_lock) =
          (if out.ok = true ∧ op.mutex_to_lock ≠ 0 then 1 else 0) ∧
        (∀ e ∈ added, e = Event.lock_queue ∨ e = Event.unlock_queue ∨
          e = Event.lock_other op.mutex_to_lock) ∧
        (op.mutex_to_lock = 0 → ∀ k, Event.lock_other k ∉ added) := by
    intro op out q2 h
    rcases Op.call_log op out h with ⟨hok, hl⟩ | hl
    · exact ⟨[], by simpa using hl, by simp [hok], by simp, by simp⟩
    · refine ⟨_, hl, ?_, ?_, ?_⟩
      · by_cases hc : out.ok = true ∧ op.mutex_to_lock ≠ 0 <;> simp [hc, List.count_cons]
      · intro e he
        by_cases hc : out.ok = true ∧ op.mutex_to_lock ≠ 0
        · rw [if_pos hc] at he
          simp only [List.singleton_append, List.mem_cons, List.mem_singleton,
            List.not_mem_nil, or_false] at he
          tauto
        · rw [if_neg hc] at he
          simp only [List.nil_append, List.mem_cons, List.mem_singleton,
            List.not_mem_nil, or_false] at he
          tauto
      · intro h0 k
        simp [h0]
  refine ⟨?_, ?_, ?_⟩
  · intro b q2 h
    have hc : (Op.send_nonblock object m alloc).call q = Res.ret (Out.sent b, q2) := by
      simp [Op.call, h, Res.map]
    obtain ⟨added, h1, h2, h3, _⟩ := key _ _ _ hc
    refine ⟨added, h1, ?_, h3⟩
    simpa [Op.mutex_to_lock, Out.ok, hm] using h2
  · intro b o2 q2 h
    have hc : (Op.receive_nonblock buffer m).call q = Res.ret (Out.received b o2, q2) := by
      simp [Op.call, h, Res.map]
    obtain ⟨added, h1, h2, h3, _⟩ := key _ _ _ hc
    refine ⟨added, h1, ?_, h3⟩
    simpa [Op.mutex_to_lock, Out.ok, hm] using h2
  · intro op out q2 h
    obtain ⟨added, h1, _, h3, h4⟩ := key op out q2 h
    exact ⟨added, h1, h3, h4⟩

/-- C12 (atomic hand-off ordering): in every queue state, every send, receive, join
and length query that is performed with a non-null `mutex_to_lock` makes exactly three
mutex calls, in this order: the lock of the queue mutex, the lock of `mutex_to_lock`,
the unlock of the queue mutex. -/
theorem external_lock_inside_critical_section (q q2 : ptq_queue) (op : Op) (out : Out)
    (hcall : op.call q = Res.ret (out, q2)) (hok : out.ok = true)
    (hm : op.mutex_to_lock ≠ 0) :
    q2.log = q.log ++
      [Event.lock_queue, Event.lock_other op.mutex_to_lock, Event.unlock_queue] := by
  rcases Op.call_log op out hcall with ⟨h0, _⟩ | hl
  · rw [hok] at h0; cases h0
  · simpa [hok, hm] using hl

/-- C13 (receive with a null output buffer): in every queue state whose list is well
formed with at least one entry and whose `read_sem` is not zero, `ptq_receive_block`
with a null buffer returns true and leaves exactly the queue that the same call with a
buffer leaves (the oldest entry is removed, the length is one lower, the semaphores and
the mutex calls are the same); the buffer stays null, no byte is copied. -/
theorem receive_block_null_buffer (q : ptq_queue) (n : Node) (ns : List Node) (m : Nat)
    (dst : List Nat) (hs : Shape q (n :: ns)) (hr : q.read_sem ≠ 0)
    (hle : q.length ≤ SIZE_MAX) :
    ∃ q2, ptq_receive_block q none m = Res.ret (true, none, q2) ∧
      ptq_receive_block q (some dst) m =
        Res.ret (true, some (memcpy dst n.bytes q.entry_size), q2) ∧
      Shape q2 ns ∧ q2.length + 1 = q.length := by
  have hs1 : Shape (({ q with read_sem := q.read_sem - 1 } : ptq_queue).logged
      Event.lock_queue) (n :: ns) :=
    hs.congr_shape (by simp) (by simp) (by simp) (by simp) (by simp)
  obtain ⟨ht0, hload, q3, hq3, hbuf, hes, _, _, _, _, _, hs3⟩ :=
    receive_unlink_spec hs1 (by simpa using hle)
  have hes3 : q3.entry_size = q.entry_size := by rw [hes]; simp
  have hlen : q.length = ns.length + 1 := hs.length_eq
  simp only [ptq_receive_block, sem_wait, hr, if_false, ptq_receive_block_locked, ht0,
    hload, hq3, hbuf, hes3]
  refine ⟨_, rfl, rfl, ?_, ?_⟩
  · exact hs3.congr_shape (by simp) (by simp) (by simp) (by simp) (by simp)
  · have := hs3.length_eq
    simp only [ptq_queue.logged_length, lock_other_length, receive_update_sems_length]
    omega

/-- Walking from the last node along the `next` pointers meets the nodes of a chain in
reverse order, and then what is met from `older`. -/
theorem Chain.reach_last {links : Heap ptq_link} {bufs : Heap (List Nat)}
    (ns : List Node) (older : Nat) (hc : Chain links bufs older ns) (fuel : Nat)
    (rest : List Nat) (hrest : reach links fuel older = some rest) :
    reach links (fuel + ns.length) (if ns = [] then older else last_addr ns) =
      some (ns.reverse.map Node.addr ++ rest) := by
  induction ns generalizing older fuel rest with
  | nil => simpa using hrest
  | cons n t ih =>
    obtain ⟨h0, h1, _, h3⟩ := hc
    have hstep : reach links (fuel + 1) n.addr = some (n.addr :: rest) := by
      simp only [reach, h0, if_false, h1, hrest, Option.map_some']
    have := ih n.addr h3 (fuel + 1) (n.addr :: rest) hstep
    have hl : (if t = [] then n.addr else last_addr t) = last_addr (n :: t) := by
      cases t <;> simp [last_addr]
    rw [hl] at this
    simp only [List.cons_ne_nil, if_false, List.length_cons, List.reverse_cons,
      List.map_append, List.map_cons, List.map_nil, List.append_assoc, List.singleton_append]
    rw [← this]
    congr 1
    omega

theorem reach_null (links : Heap ptq_link) (fuel : Nat) : reach links fuel 0 = some [] := by
  cases fuel <;> simp [reach]

/-- On a well-formed list the walk from `head` meets `length` links and ends at
`tail`; the list is empty exactly when `head` and `tail` are null. -/
theorem Shape.walk {q : ptq_queue} {ns : List Node} (hs : Shape q ns) :
    (∀ fuel, q.length ≤ fuel →
      reach q.links fuel q.head = some (ns.reverse.map Node.addr)) ∧
    (ns.reverse.map Node.addr).length = q.length ∧
    (ns.reverse.map Node.addr).getLast?.getD 0 = q.tail ∧
    (q.length = 0 ↔ q.head = 0 ∧ q.tail = 0) := by
  refine ⟨?_, by simp [hs.length_eq], ?_, ?_⟩
  · intro fuel hf
    have h := Chain.reach_last ns 0 hs.chain (fuel - ns.length) [] (reach_null _ _)
    have he : fuel - ns.length + ns.length = fuel := by
      have := hs.length_eq; omega
    rw [he] at h
    have hh : (if ns = [] then 0 else last_addr ns) = q.head := by
      rw [hs.head_eq]
      cases ns <;> simp [last_addr]
    rw [hh] at h
    simpa using h
  · rw [hs.tail_eq]
    cases ns with
    | nil => rfl
    | cons n t => simp [first_addr]
  · rw [hs.length_eq, hs.head_eq, hs.tail_eq]
    cases ns with
    | nil => simp [last_addr, first_addr]
    | cons n t =>
      have h0 : n.addr ≠ 0 := hs.chain.1
      simp [first_addr, h0]

/-- C14 (structural invariant): in every state reached from a freshly created queue by
complete sends, receives, joins and length queries (sends whose allocation fails
included), `length ≤ max_length`, the walk from `head` along `next` meets exactly
`length` links and ends at `tail`, and `length` is 0 iff `head` and `tail` are both
null. -/
theorem structural_invariant (es ml : Nat) (env : InitEnv) (q0 q : ptq_queue)
    (ops : List Op) (outs : List Out) (hml : ml ≤ SIZE_MAX)
    (hcreate : ptq_create_max es ml env = some q0)
    (hrun : run q0 ops = Res.ret (outs, q)) :
    q.length ≤ q.max_length ∧
    (∃ path, (∀ fuel, q.length ≤ fuel → reach q.links fuel q.head = some path) ∧
      path.length = q.length ∧ path.getLast?.getD 0 = q.tail) ∧
    (q.length = 0 ↔ q.head = 0 ∧ q.tail = 0) := by
  obtain ⟨hinv0, _, _⟩ := create_inv hml hcreate
  obtain ⟨ns, hinv⟩ := run_inv ops outs hinv0 hrun
  obtain ⟨h1, h2, h3, h4⟩ := hinv.shape.walk
  refine ⟨?_, ⟨_, h1, h2, h3⟩, h4⟩
  rw [hinv.shape.length_eq, hinv.max_length_eq]
  exact hinv.length_le

/-- C18 (the blocking and non-blocking variants agree once the token is there): in
every queue state with `write_sem > 0`, `ptq_send_block` and `ptq_send_nonblock` give
the same result and state, for every outcome of the allocations; in every queue state
with `read_sem > 0` and a non-null `tail`, `ptq_receive_block` and
`ptq_receive_nonblock` with a non-null buffer give the same result, buffer and
state. -/
theorem variants_agree (q : ptq_queue) (object dst : List Nat) (m : Nat) (alloc : Alloc) :
    (0 < q.write_sem →
      ptq_send_block q object m alloc = ptq_send_nonblock q object m alloc) ∧
    (0 < q.read_sem → q.tail ≠ 0 →
      ptq_receive_block q (some dst) m = ptq_receive_nonblock q (some dst) m) := by
  constructor
  · intro h
    rw [send_block_eq, if_neg (by omega)]
  · intro h ht
    exact receive_block_eq q dst m (by omega) ht

theorem NoLeak.keep_log {q : ptq_queue} (h : NoLeak q) (l : List Event) :
    NoLeak { q with log := l } := fun hl => h hl

/-- Every complete call whose allocations succeed keeps the invariant and loses no
`writable` token. -/
theorem Op.call_inv_noleak {es ml : Nat} {q q2 : ptq_queue} {ns : List Node} (op : Op)
    (out : Out) (hinv : Inv es ml q ns) (hnl : NoLeak q) (hok : op.alloc_ok)
    (h : op.call q = Res.ret (out, q2)) : ∃ ns2, Inv es ml q2 ns2 ∧ NoLeak q2 := by
  cases op with
  | send_nonblock object m alloc =>
    simp only [Op.alloc_ok] at hok
    simp only [Op.call] at h
    rcases send_nonblock_cases hinv object m alloc with ⟨_, e⟩ | ⟨_, hne, _⟩ | ⟨_, _, q3, e, hi, hn⟩
    · rw [e] at h; simp only [Res.map] at h; cases h
      exact ⟨ns, hinv, hnl⟩
    · exact absurd hok hne
    · rw [e] at h; simp only [Res.map] at h; cases h
      exact ⟨_, hi, hn⟩
  | send_block object m alloc =>
    simp only [Op.alloc_ok] at hok
    simp only [Op.call, send_block_eq] at h
    split at h
    · cases h
    rcases send_nonblock_cases hinv object m alloc with ⟨_, e⟩ | ⟨_, hne, _⟩ | ⟨_, _, q3, e, hi, hn⟩
    · rw [e] at h; simp only [Res.map] at h; cases h
      exact ⟨ns, hinv, hnl⟩
    · exact absurd hok hne
    · rw [e] at h; simp only [Res.map] at h; cases h
      exact ⟨_, hi, hn⟩
  | receive_nonblock object m =>
    simp only [Op.call] at h
    cases ns with
    | nil =>
      rw [receive_nonblock_empty hinv] at h; simp only [Res.map] at h; cases h
      exact ⟨[], hinv, hnl⟩
    | cons n t =>
      cases object with
      | none => rw [receive_nonblock_null hinv] at h; cases h
      | some dst =>
        obtain ⟨q3, e, hi, hn⟩ := receive_nonblock_ok hinv dst m
        rw [e] at h; simp only [Res.map] at h; cases h
        exact ⟨t, hi, hn hnl⟩
  | receive_block object m =>
    simp only [Op.call] at h
    cases ns with
    | nil => rw [receive_block_empty hinv] at h; cases h
    | cons n t =>
      obtain ⟨q3, e, hi, hn⟩ := receive_block_ok hinv object m
      rw [e] at h; simp only [Res.map] at h; cases h
      exact ⟨t, hi, hn hnl⟩
  | join m =>
    simp only [Op.call] at h
    cases ns with
    | nil =>
      rw [join_empty hinv] at h; simp only [Res.map] at h; cases h
      exact ⟨[], hinv.with_log _, hnl.keep_log _⟩
    | cons n t => rw [join_nonempty hinv] at h; cases h
  | get_length m =>
    simp only [Op.call, get_length_eq] at h
    simp only [Res.map] at h; cases h
    exact ⟨ns, hinv.with_log _, hnl.keep_log _⟩

theorem run_inv_noleak {es ml : Nat} (ops : List Op) {q q2 : ptq_queue} {ns : List Node}
    (outs : List Out) (hinv : Inv es ml q ns) (hnl : NoLeak q)
    (hok : ∀ op ∈ ops, op.alloc_ok) (h : run q ops = Res.ret (outs, q2)) :
    ∃ ns2, Inv es ml q2 ns2 ∧ NoLeak q2 := by
  induction ops generalizing q ns outs with
  | nil =>
    simp only [run] at h
    cases h
    exact ⟨ns, hinv, hnl⟩
  | cons op ops ih =>
    obtain ⟨o, q1, os, hc, hr, _⟩ := run_cons_ret h
    obtain ⟨ns1, hi1, hn1⟩ :=
      Op.call_inv_noleak op o hinv hnl (hok op (List.mem_cons_self _ _)) hc
    exact ih os hi1 hn1 (fun x hx => hok x (List.mem_cons_of_mem _ hx)) hr

/-- C15 (the semaphores track the queue state, single-threaded): in every state reached
from a freshly created queue by complete calls with allocation never failing, each
semaphore is 0 or 1, `read_sem = 1` iff `length > 0`, `write_sem = 1` iff
`length < max_length`, and `empty_sem = 1` iff `length = 0`. -/
theorem semaphores_track_state (es ml : Nat) (env : InitEnv) (q0 q : ptq_queue)
    (ops : List Op) (outs : List Out) (hml : ml ≤ SIZE_MAX)
    (hcreate : ptq_create_max es ml env = some q0)
    (halloc : ∀ op ∈ ops, op.alloc_ok)
    (hrun : run q0 ops = Res.ret (outs, q)) :
    (q.read_sem = 0 ∨ q.read_sem = 1) ∧ (q.write_sem = 0 ∨ q.write_sem = 1) ∧
    (q.empty_sem = 0 ∨ q.empty_sem = 1) ∧
    (q.read_sem = 1 ↔ 0 < q.length) ∧ (q.write_sem = 1 ↔ q.length < q.max_length) ∧
    (q.empty_sem = 1 ↔ q.length = 0) := by
  obtain ⟨hinv0, hnl0, _⟩ := create_inv hml hcreate
  obtain ⟨ns, hinv, hnl⟩ := run_inv_noleak ops outs hinv0 hnl0 halloc hrun
  have hl := hinv.shape.length_eq
  have hr := hinv.read_eq
  have he := hinv.empty_eq
  have hw := hinv.write_le
  have hm := hinv.max_length_eq
  unfold NoLeak at hnl
  rw [hl, hm] at hnl
  rw [hl, hm]
  by_cases h0 : ns.length = 0
  · simp only [h0, if_true] at hr he
    refine ⟨Or.inl hr, ?_, Or.inr he, ?_, ?_, ?_⟩
    · rcases hw with h | ⟨h, _⟩
      · exact Or.inl h
      · exact Or.inr h
    · simp [hr, h0]
    · constructor
      · intro h1
        rcases hw with h | ⟨_, h⟩
        · omega
        · exact h
      · exact hnl
    · simp [he, h0]
  · simp only [h0, if_false] at hr he
    refine ⟨Or.inr hr, ?_, Or.inl he, ?_, ?_, ?_⟩
    · rcases hw with h | ⟨h, _⟩
      · exact Or.inl h
      · exact Or.inr h
    · simp [hr]; omega
    · constructor
      · intro h1
        rcases hw with h | ⟨_, h⟩
        · omega
        · exact h
      · exact hnl
    · simp [he, h0]

/-- C17 (a readable token implies a non-null tail): in every state reached from a
freshly created queue by complete calls (sends whose allocation fails included),
`read_sem > 0` implies `tail` is not null; there both receives with a buffer return
true, so the null-tail branch of `ptq_receive_nonblock` is not taken, and
`ptq_receive_block` never ends in a fault, whatever the buffer. -/
theorem readable_implies_tail (es ml : Nat) (env : InitEnv) (q0 q : ptq_queue)
    (ops : List Op) (outs : List Out) (hml : ml ≤ SIZE_MAX)
    (hcreate : ptq_create_max es ml env = some q0)
    (hrun : run q0 ops = Res.ret (outs, q)) (object : Option (List Nat)) (dst : List Nat)
    (m : Nat) :
    (0 < q.read_sem → q.tail ≠ 0) ∧
    (0 < q.read_sem → ∃ o q2, ptq_receive_nonblock q (some dst) m = Res.ret (true, o, q2)) ∧
    (0 < q.read_sem → ∃ o q2, ptq_receive_block q object m = Res.ret (true, o, q2)) ∧
    ptq_receive_block q object m ≠ Res.fault := by
  obtain ⟨hinv0, _, _⟩ := create_inv hml hcreate
  obtain ⟨ns, hinv⟩ := run_inv ops outs hinv0 hrun
  cases ns with
  | nil =>
    have hr : q.read_sem = 0 := by simpa using hinv.read_eq
    refine ⟨by omega, by omega, by omega, ?_⟩
    rw [receive_block_empty hinv]
    simp
  | cons n t =>
    obtain ⟨q2, e2, _, _⟩ := receive_nonblock_ok hinv dst m
    obtain ⟨q3, e3, _, _⟩ := receive_block_ok hinv object m
    refine ⟨fun _ => ?_, fun _ => ⟨_, _, e2⟩, fun _ => ⟨_, _, e3⟩, by rw [e3]; simp⟩
    rw [hinv.shape.tail_eq]
    exact hinv.shape.chain.1

/-- Both sends on a queue with a `writable` token, when an allocation fails: the token
is taken and the queue mutex is locked and unlocked. -/
theorem send_fail_eq (q : ptq_queue) (object : List Nat) (mtx : Nat) (alloc : Alloc)
    (hw : q.write_sem ≠ 0) (ha : alloc ≠ Alloc.ok) :
    ptq_send_nonblock q object mtx alloc = Res.ret (false,
      { q with write_sem := q.write_sem - 1,
               log := q.log ++ [Event.lock_queue, Event.unlock_queue] }) ∧
    ptq_send_block q object mtx alloc = Res.ret (false,
      { q with write_sem := q.write_sem - 1,
               log := q.log ++ [Event.lock_queue, Event.unlock_queue] }) := by
  have h1 : ptq_send_nonblock q object mtx alloc = Res.ret (false,
      { q with write_sem := q.write_sem - 1,
               log := q.log ++ [Event.lock_queue, Event.unlock_queue] }) := by
    simp only [ptq_send_nonblock, sem_trywait, hw, if_false]
    exact send_nonblock_locked_fail _ object mtx alloc ha
  refine ⟨h1, ?_⟩
  rw [send_block_eq, if_neg hw, h1]

/-- The `writable` semaphore after the semaphore updates of a removal. -/
theorem receive_finish_write {q2 : ptq_queue} {ns : List Node} (t : ptq_link) (a mtx ml : Nat)
    (hs : Shape (receive_release q2 a t) ns) (hm : q2.max_length = ml) (hpos : 1 ≤ ml)
    (hle : ml ≤ SIZE_MAX) :
    ((lock_other (receive_update_sems (receive_release q2 a t)) mtx).logged
      Event.unlock_queue).write_sem =
      if ns.length = ml - 1 then q2.write_sem + 1 else q2.write_sem := by
  simp only [ptq_queue.logged_write_sem, lock_other_write_sem, receive_update_sems_write_sem,
    hs.length_eq, receive_release_write_sem, receive_release_max_length, hm,
    size_dec_of_pos _ hpos hle]

/-- A receive on a queue that has room and no `writable` token does not post one. -/
theorem receive_dead {es ml : Nat} {q : ptq_queue} {n : Node} {ns : List Node}
    (hinv : Inv es ml q (n :: ns)) (hw : q.write_sem = 0) (hlt : ns.length + 1 < ml)
    (object : Option (List Nat)) (m : Nat) :
    (∀ b o q2, ptq_receive_block q object m = Res.ret (b, o, q2) → q2.write_sem = 0) ∧
    (∀ b o q2, ptq_receive_nonblock q object m = Res.ret (b, o, q2) → q2.write_sem = 0) := by
  have hread : q.read_sem = 1 := by simpa using hinv.read_eq
  have hs1 : Shape (({ q with read_sem := 1 - 1 } : ptq_queue).logged Event.lock_queue)
      (n :: ns) :=
    hinv.shape.congr_shape (by simp) (by simp) (by simp) (by simp) (by simp)
  obtain ⟨ht0, hload, q3, hq3, hbuf, hes, hr, hw3, he, hm, _, hs3⟩ :=
    receive_unlink_spec hs1
      (by simp only [ptq_queue.logged_length, hinv.shape.length_eq]
          have := hinv.length_le; have := hinv.max_le; omega)
  have hm3 : q3.max_length = ml := by rw [hm]; simpa using hinv.max_length_eq
  have hw0 : q3.write_sem = 0 := by rw [hw3]; simpa using hw
  have hfin := receive_finish_write (ptq_link.mk (first_addr ns) 0 n.mem)
    (({ q with read_sem := 1 - 1 } : ptq_queue).logged Event.lock_queue).tail m ml hs3 hm3
    hinv.max_pos hinv.max_le
  have hne : ¬ ns.length = ml - 1 := by omega
  rw [if_neg hne, hw0] at hfin
  constructor
  · intro b o q2 h
    simp only [ptq_receive_block, sem_wait, hread, Nat.one_ne_zero, if_false,
      ptq_receive_block_locked, ht0, hload, hq3] at h
    cases object with
    | none =>
      simp only [Res.ret.injEq, Prod.mk.injEq] at h
      obtain ⟨_, _, rfl⟩ := h
      exact hfin
    | some dst =>
      simp only [hbuf, Res.ret.injEq, Prod.mk.injEq] at h
      obtain ⟨_, _, rfl⟩ := h
      exact hfin
  · intro b o q2 h
    simp only [ptq_receive_nonblock, sem_trywait, hread, Nat.one_ne_zero, if_false,
      ptq_receive_nonblock_locked, ht0, hload, hq3] at h
    cases object with
    | none => simp at h
    | some dst =>
      simp only [hbuf, Res.ret.injEq, Prod.mk.injEq] at h
      obtain ⟨_, _, rfl⟩ := h
      exact hfin

/-- On a queue that has room and no `writable` token, every complete call leaves the
queue so, and no send returns true. -/
theorem Op.call_dead {es ml : Nat} {q q2 : ptq_queue} {ns : List Node} (op : Op) (out : Out)
    (hinv : Inv es ml q ns) (hw : q.write_sem = 0) (hlt : ns.length < ml)
    (h : op.call q = Res.ret (out, q2)) :
    ∃ ns2, Inv es ml q2 ns2 ∧ q2.write_sem = 0 ∧ ns2.length < ml ∧ out ≠ Out.sent true := by
  have hmiss : ∀ object m alloc,
      ptq_send_nonblock q object m alloc = Res.ret (false, q) := by
    intro object m alloc
    simp [ptq_send_nonblock, sem_trywait, hw]
  cases op with
  | send_nonblock object m alloc =>
    simp only [Op.call, hmiss, Res.map, Res.ret.injEq, Prod.mk.injEq] at h
    obtain ⟨rfl, rfl⟩ := h
    exact ⟨ns, hinv, hw, hlt, by simp⟩
  | send_block object m alloc =>
    simp only [Op.call, send_block_eq, hw, if_true] at h
    cases h
  | receive_nonblock object m =>
    simp only [Op.call] at h
    obtain ⟨⟨b, o2, q3⟩, hr, he⟩ := res_map_ret h
    simp only [Prod.mk.injEq] at he
    obtain ⟨rfl, rfl⟩ := he
    cases ns with
    | nil =>
      rw [receive_nonblock_empty hinv] at hr
      simp only [Res.ret.injEq, Prod.mk.injEq] at hr
      obtain ⟨_, _, rfl⟩ := hr
      exact ⟨[], hinv, hw, hlt, by simp⟩
    | cons n t =>
      have hd := (receive_dead hinv hw (by simpa using hlt) object m).2 _ _ _ hr
      cases object with
      | none => rw [receive_nonblock_null hinv] at hr; cases hr
      | some dst =>
        obtain ⟨q4, e, hi, _⟩ := receive_nonblock_ok hinv dst m
        rw [e] at hr
        simp only [Res.ret.injEq, Prod.mk.injEq] at hr
        obtain ⟨_, _, rfl⟩ := hr
        exact ⟨t, hi, hd, by simp only [List.length_cons] at hlt; omega, by simp⟩
  | receive_block object m =>
    simp only [Op.call] at h
    obtain ⟨⟨b, o2, q3⟩, hr, he⟩ := res_map_ret h
    simp only [Prod.mk.injEq] at he
    obtain ⟨rfl, rfl⟩ := he
    cases ns with
    | nil => rw [receive_block_empty hinv] at hr; cases hr
    | cons n t =>
      have hd := (receive_dead hinv hw (by simpa using hlt) object m).1 _ _ _ hr
      obtain ⟨q4, e, hi, _⟩ := receive_block_ok hinv object m
      rw [e] at hr
      simp only [Res.ret.injEq, Prod.mk.injEq] at hr
      obtain ⟨_, _, rfl⟩ := hr
      exact ⟨t, hi, hd, by simp only [List.length_cons] at hlt; omega, by simp⟩
  | join m =>
    simp only [Op.call] at h
    cases ns with
    | nil =>
      rw [join_empty hinv] at h; simp only [Res.map] at h; cases h
      exact ⟨[], hinv.with_log _, hw, hlt, by simp⟩
    | cons n t => rw [join_nonempty hinv] at h; cases h
  | get_length m =>
    simp only [Op.call, get_length_eq] at h
    simp only [Res.map] at h; cases h
    exact ⟨ns, hinv.with_log _, hw, hlt, by simp⟩

theorem run_dead {es ml : Nat} (ops : List Op) {q q2 : ptq_queue} {ns : List Node}
    (outs : List Out) (hinv : Inv es ml q ns) (hw : q.write_sem = 0) (hlt : ns.length < ml)
    (h : run q ops = Res.ret (outs, q2)) :
    q2.write_sem = 0 ∧ Out.sent true ∉ outs := by
  induction ops generalizing q ns outs with
  | nil =>
    simp only [run] at h
    cases h
    exact ⟨hw, by simp⟩
  | cons op ops ih =>
    obtain ⟨o, q1, os, hc, hr, rfl⟩ := run_cons_ret h
    obtain ⟨ns1, hi1, hw1, hlt1, ho⟩ := Op.call_dead op o hinv hw hlt hc
    obtain ⟨h1, h2⟩ := ih os hi1 hw1 hlt1 hr
    refine ⟨h1, ?_⟩
    simp only [List.mem_cons, not_or]
    exact ⟨fun e => ho e.symm, h2⟩

/-- C19 (a failed allocation disables writes for good): in a state reached from a
freshly created queue by complete calls, once a send that held the `writable` token
has returned false because an allocation failed, `write_sem` is 0 after every later
sequence of complete sends, receives, joins and length queries, no send of that
sequence returns true, and `ptq_send_nonblock` returns false and changes nothing. -/
theorem failed_allocation_disables_writes (es ml : Nat) (env : InitEnv)
    (q0 q q1 q2 : ptq_queue) (ops later : List Op) (outs outs2 : List Out)
    (send : SendCall) (hml : ml ≤ SIZE_MAX)
    (hcreate : ptq_create_max es ml env = some q0)
    (hrun : run q0 ops = Res.ret (outs, q))
    (htoken : q.write_sem ≠ 0) (halloc : send.alloc ≠ Alloc.ok)
    (hfail : send.op.call q = Res.ret (Out.sent false, q1))
    (hlater : run q1 later = Res.ret (outs2, q2))
    (object : List Nat) (m : Nat) (alloc : Alloc) :
    q2.write_sem = 0 ∧ Out.sent true ∉ outs2 ∧
      ptq_send_nonblock q2 object m alloc = Res.ret (false, q2) := by
  obtain ⟨hinv0, _, _⟩ := create_inv hml hcreate
  obtain ⟨ns, hinv⟩ := run_inv ops outs hinv0 hrun
  have hroom : ns.length < (if ml = 0 then 1 else ml) := by
    rcases hinv.write_le with h | ⟨_, h⟩
    · exact absurd h htoken
    · exact h
  have hq1 : q1 =
      { q with
        write_sem := q.write_sem - 1,
        log := q.log ++ [Event.lock_queue, Event.unlock_queue] } := by
    obtain ⟨h1, h2⟩ := send_fail_eq q send.object send.mutex_to_lock send.alloc
      htoken halloc
    unfold SendCall.op at hfail
    split at hfail
    · simp only [Op.call, h2, Res.map, Res.ret.injEq, Prod.mk.injEq] at hfail
      exact hfail.2.symm
    · simp only [Op.call, h1, Res.map, Res.ret.injEq, Prod.mk.injEq] at hfail
      exact hfail.2.symm
  have hw1 : q.write_sem = 1 := by
    rcases hinv.write_le with h | ⟨h, _⟩
    · exact absurd h htoken
    · exact h
  have hinv1 : Inv es (if ml = 0 then 1 else ml) q1 ns := by
    rw [hq1]
    exact (hinv.take_write (q.write_sem - 1) (by rw [hw1])).with_log _
  have hw0 : q1.write_sem = 0 := by rw [hq1]; simp [hw1]
  obtain ⟨h1, h2⟩ := run_dead later outs2 hinv1 hw0 hroom hlater
  exact ⟨h1, h2, by simp [ptq_send_nonblock, sem_trywait, h1]⟩

/-- C16: in the schedule `double_post` the semaphore `empty_sem` reaches 2.  Each step
is listed with `read_sem`, `write_sem`, `empty_sem` and the length.  Thread 1 takes the
token in step 2; the receive of step 8 empties the queue and posts `empty_sem`; the
critical section of the join (step 9) finds the length 0 and posts it again.  After
the send of step 12 the queue holds one entry and `empty_sem` is still 1. -/
theorem empty_sem_exceeds_one :
    (exec ⟨⟨0, 1, 1, 0, 0, 0, 2, 1, [], [], []⟩, []⟩ double_post).map
      (fun tr => tr.map (fun s =>
        (s.1.queue.read_sem, s.1.queue.write_sem, s.1.queue.empty_sem, s.1.queue.length))) =
    some [(0, 1, 1, 0), (0, 1, 0, 0),
      (0, 1, 0, 0), (0, 0, 0, 0), (1, 1, 0, 1),
      (1, 1, 0, 1), (0, 1, 0, 1), (0, 1, 1, 0),
      (0, 1, 2, 0),
      (0, 1, 2, 0), (0, 0, 2, 0), (1, 1, 1, 1)] := by
  decide

theorem external_lock_exactly_on_success_witness :
    ptq_send_nonblock queue_2_3 [1, 2] 5 Alloc.ok = Res.ret (true, queue_2_3_one) ∧
    (∃ added, queue_2_3_one.log = queue_2_3.log ++ added ∧
      added.count (Event.lock_other 5) = (if true = true then 1 else 0) ∧
      ∀ e ∈ added, e = Event.lock_queue ∨ e = Event.unlock_queue ∨ e = Event.lock_other 5) ∧
    ptq_receive_nonblock queue_2_3 (some [9, 9]) 5 = Res.ret (false, some [9, 9], queue_2_3) ∧
    (∃ added, queue_2_3.log = queue_2_3.log ++ added ∧
      added.count (Event.lock_other 5) = (if false = true then 1 else 0) ∧
      ∀ e ∈ added, e = Event.lock_queue ∨ e = Event.unlock_queue ∨ e = Event.lock_other 5) :=
  ⟨by decide,
    (external_lock_exactly_on_success queue_2_3 [1, 2] (some [9, 9]) 5 Alloc.ok
      (by decide)).1 true queue_2_3_one (by decide),
    by decide,
    (external_lock_exactly_on_success queue_2_3 [1, 2] (some [9, 9]) 5 Alloc.ok
      (by decide)).2.1 false (some [9, 9]) queue_2_3 (by decide)⟩

theorem external_lock_inside_critical_section_witness :
    (Op.send_block [1, 2] 5 Alloc.ok).call queue_2_3 =
      Res.ret (Out.sent true, queue_2_3_one) ∧
    queue_2_3_one.log = queue_2_3.log ++
      [Event.lock_queue, Event.lock_other 5, Event.unlock_queue] :=
  ⟨by decide,
    external_lock_inside_critical_section queue_2_3 queue_2_3_one
      (Op.send_block [1, 2] 5 Alloc.ok) (Out.sent true) (by decide) (by decide) (by decide)⟩

theorem receive_block_null_buffer_witness :
    Shape queue_2_3_sent [⟨1, 1, [1, 2]⟩, ⟨2, 2, [3, 4]⟩] ∧
    queue_2_3_sent.read_sem ≠ 0 ∧
    ∃ q2, ptq_receive_block queue_2_3_sent none 6 = Res.ret (true, none, q2) ∧
      ptq_receive_block queue_2_3_sent (some [9, 9]) 6 =
        Res.ret (true, some (memcpy [9, 9] [1, 2] queue_2_3_sent.entry_size), q2) ∧
      Shape q2 [⟨2, 2, [3, 4]⟩] ∧ q2.length + 1 = queue_2_3_sent.length :=
  have hs : Shape queue_2_3_sent [⟨1, 1, [1, 2]⟩, ⟨2, 2, [3, 4]⟩] :=
    ⟨⟨by decide, by decide, by decide, by decide, by decide, by decide, trivial⟩,
      by decide, by decide, by decide, by decide, by decide⟩
  ⟨hs, by decide,
    receive_block_null_buffer queue_2_3_sent ⟨1, 1, [1, 2]⟩ [⟨2, 2, [3, 4]⟩] 6 [9, 9] hs
      (by decide) (by decide)⟩

theorem structural_invariant_witness :
    run queue_2_3 (two_sends.map SendCall.op) =
      Res.ret ([Out.sent true, Out.sent true], queue_2_3_sent) ∧
    (queue_2_3_sent.length ≤ queue_2_3_sent.max_length ∧
      (∃ path, (∀ fuel, queue_2_3_sent.length ≤ fuel →
          reach queue_2_3_sent.links fuel queue_2_3_sent.head = some path) ∧
        path.length = queue_2_3_sent.length ∧
        path.getLast?.getD 0 = queue_2_3_sent.tail) ∧
      (queue_2_3_sent.length = 0 ↔ queue_2_3_sent.head = 0 ∧ queue_2_3_sent.tail = 0)) :=
  ⟨by decide,
    structural_invariant 2 3 InitEnv.success queue_2_3 queue_2_3_sent
      (two_sends.map SendCall.op) [Out.sent true, Out.sent true] (by decide) (by decide)
      (by decide)⟩

theorem semaphores_track_state_witness :
    run queue_2_2 (two_sends.map SendCall.op) =
      Res.ret ([Out.sent true, Out.sent true], queue_2_2_sent) ∧
    ((queue_2_2_sent.read_sem = 0 ∨ queue_2_2_sent.read_sem = 1) ∧
      (queue_2_2_sent.write_sem = 0 ∨ queue_2_2_sent.write_sem = 1) ∧
      (queue_2_2_sent.empty_sem = 0 ∨ queue_2_2_sent.empty_sem = 1) ∧
      (queue_2_2_sent.read_sem = 1 ↔ 0 < queue_2_2_sent.length) ∧
      (queue_2_2_sent.write_sem = 1 ↔ queue_2_2_sent.length < queue_2_2_sent.max_length) ∧
      (queue_2_2_sent.empty_sem = 1 ↔ queue_2_2_sent.length = 0)) :=
  ⟨by decide,
    semaphores_track_state 2 2 InitEnv.success queue_2_2 queue_2_2_sent
      (two_sends.map SendCall.op) [Out.sent true, Out.sent true] (by decide) (by decide)
      (by intro op hop
          simp only [two_sends, List.map_cons, List.map_nil, List.mem_cons,
            List.mem_singleton, List.not_mem_nil, or_false] at hop
          rcases hop with h | h <;> subst h <;> simp [SendCall.op, Op.alloc_ok])
      (by decide)⟩

theorem readable_implies_tail_witness :
    run queue_2_3 (two_sends.map SendCall.op) =
      Res.ret ([Out.sent true, Out.sent true], queue_2_3_sent) ∧
    ((0 < queue_2_3_sent.read_sem → queue_2_3_sent.tail ≠ 0) ∧
      (0 < queue_2_3_sent.read_sem →
        ∃ o q2, ptq_receive_nonblock queue_2_3_sent (some [9, 9]) 0 = Res.ret (true, o, q2)) ∧
      (0 < queue_2_3_sent.read_sem →
        ∃ o q2, ptq_receive_block queue_2_3_sent none 0 = Res.ret (true, o, q2)) ∧
      ptq_receive_block queue_2_3_sent none 0 ≠ Res.fault) :=
  ⟨by decide,
    readable_implies_tail 2 3 InitEnv.success queue_2_3 queue_2_3_sent
      (two_sends.map SendCall.op) [Out.sent true, Out.sent true] (by decide) (by decide)
      (by decide) none [9, 9] 0⟩

theorem variants_agree_witness :
    0 < queue_2_3_sent.write_sem ∧
    ptq_send_block queue_2_3_sent [5, 6] 7 Alloc.ok =
      ptq_send_nonblock queue_2_3_sent [5, 6] 7 Alloc.ok ∧
    0 < queue_2_3_sent.read_sem ∧ queue_2_3_sent.tail ≠ 0 ∧
    ptq_receive_block queue_2_3_sent (some [9, 9]) 7 =
      ptq_receive_nonblock queue_2_3_sent (some [9, 9]) 7 :=
  ⟨by decide,
    (variants_agree queue_2_3_sent [5, 6] [9, 9] 7 Alloc.ok).1 (by decide),
    by decide, by decide,
    (variants_agree queue_2_3_sent [5, 6] [9, 9] 7 Alloc.ok).2 (by decide) (by decide)⟩

theorem failed_allocation_disables_writes_witness :
    run queue_2_2 [Op.send_nonblock [1, 2] 0 Alloc.ok] =
      Res.ret ([Out.sent true], queue_2_2_one) ∧
    (SendCall.mk true [1, 2] 0 Alloc.no_memory).op.call queue_2_2_one =
      Res.ret (Out.sent false, queue_2_2_leaked) ∧
    run queue_2_2_leaked [Op.receive_block none 0] =
      Res.ret ([Out.received true none], queue_2_2_drained) ∧
    (queue_2_2_drained.write_sem = 0 ∧ Out.sent true ∉ [Out.received true none] ∧
      ptq_send_nonblock queue_2_2_drained [5, 6] 0 Alloc.ok =
        Res.ret (false, queue_2_2_drained)) :=
  ⟨by decide, by decide, by decide,
    failed_allocation_disables_writes 2 2 InitEnv.success queue_2_2 queue_2_2_one
      queue_2_2_leaked queue_2_2_drained [Op.send_nonblock [1, 2] 0 Alloc.ok]
      [Op.receive_block none 0] [Out.sent true] [Out.received true none]
      (SendCall.mk true [1, 2] 0 Alloc.no_memory) (by decide) (by decide) (by decide)
      (by decide) (by decide) (by decide) (by decide) [5, 6] 0 Alloc.ok⟩

end Ptq
